import Mathlib

/-!
# Verification of the E-Invoice API schema validator and XML validation route

This file gives a shallow embedding, in Lean 4, of the parts of the
repository that the specification talks about:

* `validateSchema` and `INVOICE_SCHEMA` from `src/validation/jsonSchemaValidator.js`
  (the file shipped as `src/unnamed/part_000`);
* the `POST /validate` handler of `src/routes/xmlInvoice.js` (its post-parse
  stage: the `normalize` helper, the `ItemList` rewrite and the response
  construction).

JavaScript runtime values are modelled by the inductive type `JValue`.
JS numbers are IEEE-754 doubles; the claims under verification involve no
floating-point arithmetic, so we model the integral fragment (`Int`), which
is enough for every type, enum and message-level question asked here.
A JS function that can throw is modelled with an `Option` result,
`none` standing for a thrown exception.
-/

/-- A JavaScript runtime value (the fragment produced by `JSON.parse` /
`xml-js` plus `undefined`): `undefined`, `null`, booleans, (integral)
numbers, strings, arrays and plain objects.  An object is a list of
key/value pairs in insertion order, which is also JS `for…in` /
`Object.keys` order for string keys. -/
inductive JValue where
  | undef
  | null
  | bool (b : Bool)
  | num (n : Int)
  | str (s : String)
  | arr (elems : List JValue)
  | obj (fields : List (String × JValue))

mutual

/-- Structural boolean equality on `JValue`, used to obtain decidable
equality for the nested inductive. -/
def JValue.beq : JValue → JValue → Bool
  | .undef, .undef => true
  | .null, .null => true
  | .bool a, .bool b => a == b
  | .num a, .num b => a == b
  | .str a, .str b => a == b
  | .arr xs, .arr ys => JValue.beqList xs ys
  | .obj fs, .obj gs => JValue.beqFields fs gs
  | _, _ => false

/-- `JValue.beq` lifted element-wise to lists. -/
def JValue.beqList : List JValue → List JValue → Bool
  | [], [] => true
  | x :: xs, y :: ys => JValue.beq x y && JValue.beqList xs ys
  | _, _ => false

/-- `JValue.beq` lifted to key/value binding lists. -/
def JValue.beqFields : List (String × JValue) → List (String × JValue) → Bool
  | [], [] => true
  | (k, v) :: fs, (l, w) :: gs => k == l && JValue.beq v w && JValue.beqFields fs gs
  | _, _ => false

end

theorem JValue.beq_iff : ∀ a b, JValue.beq a b = true ↔ a = b := by
  apply JValue.beq.induct
    (fun a b => JValue.beq a b = true ↔ a = b)
    (fun fs gs => JValue.beqFields fs gs = true ↔ fs = gs)
    (fun xs ys => JValue.beqList xs ys = true ↔ xs = ys)
  case case8 =>
    intro t x h1 h2 h3 h4 h5 h6 h7
    cases t <;> cases x <;> first
      | exact (h1 rfl rfl).elim
      | exact (h2 rfl rfl).elim
      | exact (h3 _ _ rfl rfl).elim
      | exact (h4 _ _ rfl rfl).elim
      | exact (h5 _ _ rfl rfl).elim
      | exact (h6 _ _ rfl rfl).elim
      | exact (h7 _ _ rfl rfl).elim
      | simp [JValue.beq]
  case case11 =>
    intro t x h1 h2
    cases t <;> cases x <;> first
      | exact (h1 rfl rfl).elim
      | exact (h2 _ _ _ _ rfl rfl).elim
      | simp [JValue.beqList]
  case case14 =>
    intro t x h1 h2
    cases t <;> cases x <;> first
      | exact (h1 rfl rfl).elim
      | exact (h2 _ _ _ _ _ _ rfl rfl).elim
      | simp [JValue.beqFields]
  all_goals intros
  all_goals simp_all [JValue.beq, JValue.beqList, JValue.beqFields]

instance : DecidableEq JValue := fun a b =>
  decidable_of_iff (JValue.beq a b = true) (JValue.beq_iff a b)

/-- JS `typeof` on a `JValue`.  Note `typeof null` is `"object"` and arrays
are also `"object"`. -/
def jsTypeof : JValue → String
  | .undef => "undefined"
  | .null => "object"
  | .bool _ => "boolean"
  | .num _ => "number"
  | .str _ => "string"
  | .arr _ => "object"
  | .obj _ => "object"

/-- `Array.isArray(data) ? 'array' : typeof data` — the `type` computed at
the top of `validateSchema`. -/
def jsCategory : JValue → String
  | .arr _ => "array"
  | v => jsTypeof v

/-- JS truthiness of a value.  (`NaN` is not representable in our integral
number model; every object and array, including empty ones, is truthy.) -/
def jsTruthy : JValue → Bool
  | .undef => false
  | .null => false
  | .bool b => b
  | .num n => n != 0
  | .str s => !s.isEmpty
  | .arr _ => true
  | .obj _ => true

/-- Property read `fields[k]` on a JS object: the value of the first
binding of `k`, or `undefined` when `k` is absent. -/
def jsLookup (fields : List (String × JValue)) (k : String) : JValue :=
  match fields.find? (fun p => p.1 == k) with
  | some p => p.2
  | none => (JValue.undef)

/-- The JS `k in fields` test: key presence, regardless of the value. -/
def keyIn (k : String) (fields : List (String × JValue)) : Bool :=
  fields.any (fun p => p.1 == k)

/-- JS strict-style equality as used by `Array.prototype.includes`
(SameValueZero).  On primitives this is value equality; two distinct
objects or arrays are never `===`-equal (reference equality), and the
values compared by the validator are always freshly parsed data versus
schema constants, so object/array comparisons are `false`. -/
def jvEq : JValue → JValue → Bool
  | .undef, .undef => true
  | .null, .null => true
  | .bool a, .bool b => a == b
  | .num a, .num b => a == b
  | .str a, .str b => a == b
  | _, _ => false

/-- JS `String(v)` conversion for the values that can reach a template
literal in the validator: primitives print their usual form, arrays print
as their comma-joined elements (with `null`/`undefined` elements printing
as the empty string, as in `Array.prototype.toString`), plain objects
print `"[object Object]"`. -/
def jsToString : JValue → String
  | .undef => "undefined"
  | .null => "null"
  | .bool b => if b then "true" else "false"
  | .num n => toString n
  | .str s => s
  | .arr xs =>
      String.intercalate "," (xs.attach.map (fun p =>
        match p with
        | ⟨.undef, _⟩ => ""
        | ⟨.null, _⟩ => ""
        | ⟨v, _⟩ => jsToString v))
  | .obj _ => "[object Object]"
decreasing_by
  rename_i xs h
  have := List.sizeOf_lt_of_mem h
  simp
  omega

/-- JS `Array.prototype.join(sep)`: each element via `String(·)`, except
`null`/`undefined` which join as the empty string. -/
def jsJoin (sep : String) (xs : List JValue) : String :=
  String.intercalate sep (xs.map (fun v =>
    match v with
    | .undef => ""
    | .null => ""
    | v => jsToString v))

/-! ## Model of the JS numeric-string test `!isNaN(parseFloat(s)) && isFinite(s)` -/

/-- Longest prefix of decimal digits, and the rest. -/
def takeDigits : List Char → List Char × List Char
  | [] => ([], [])
  | c :: cs =>
    if c.isDigit then
      let p := takeDigits cs
      (c :: p.1, p.2)
    else ([], c :: cs)

/-- Strip one optional leading sign. -/
def stripSign : List Char → List Char
  | '+' :: cs => cs
  | '-' :: cs => cs
  | cs => cs

/-- Optional exponent part: empty, or `(e|E)(+|-)?digits`. -/
def expOk (cs : List Char) : Bool :=
  match cs with
  | [] => true
  | c :: rest =>
    (c == 'e' || c == 'E') &&
      (let p := takeDigits (stripSign rest)
       !p.1.isEmpty && p.2.isEmpty)

/-- `digits ('.' digits*)? | '.' digits+`, then an optional exponent,
consuming the whole input. -/
def mantissaExpOk (cs : List Char) : Bool :=
  let ip := takeDigits cs
  match ip.2 with
  | '.' :: r2 =>
    let fp := takeDigits r2
    (!ip.1.isEmpty || !fp.1.isEmpty) && expOk fp.2
  | r1 => !ip.1.isEmpty && expOk r1

/-- A full (finite) decimal numeric literal with optional sign. -/
def isDecimalLiteral (cs : List Char) : Bool :=
  mantissaExpOk (stripSign cs)

def isHexDigitChar (c : Char) : Bool :=
  c.isDigit || ('a' ≤ c && c ≤ 'f') || ('A' ≤ c && c ≤ 'F')

/-- `0x…` / `0o…` / `0b…` integer literals (JS `Number` allows no sign on
these). -/
def isRadixIntLiteral : List Char → Bool
  | '0' :: x :: rest =>
    if x == 'x' || x == 'X' then !rest.isEmpty && rest.all isHexDigitChar
    else if x == 'o' || x == 'O' then !rest.isEmpty && rest.all (fun c => '0' ≤ c && c ≤ '7')
    else if x == 'b' || x == 'B' then !rest.isEmpty && rest.all (fun c => c == '0' || c == '1')
    else false
  | _ => false

/-- JS string whitespace (the usual ASCII members; JS also trims rare
Unicode spaces, which the repository's data never contains). -/
def isJsWhitespace (c : Char) : Bool :=
  c = ' ' || c = '\t' || c = '\n' || c = '\r' || c = '\x0b' || c = '\x0c'

/-- Drop leading whitespace. -/
def dropWhitespace : List Char → List Char
  | [] => []
  | c :: cs => if isJsWhitespace c then dropWhitespace cs else c :: cs

/-- Trim whitespace on both ends (spelled out on the character list so that
concrete instances evaluate inside the kernel). -/
def jsTrimChars (cs : List Char) : List Char :=
  (dropWhitespace (dropWhitespace cs.reverse).reverse)

/-- Model of the JS condition `!isNaN(parseFloat(s)) && isFinite(s)` used by
the validator's lenient numeric check.  `parseFloat` accepts any input with
a decimal-literal prefix (after trimming leading whitespace), and
`isFinite(s)` coerces the whole string with `Number(...)`, which is finite
exactly when the trimmed string is a full finite decimal literal or a
hex/octal/binary integer literal (the empty string coerces to `0` but fails
`parseFloat`; `"Infinity"` passes `parseFloat` but fails `isFinite`).  The
conjunction therefore holds iff the trimmed string is a full finite numeric
literal. -/
def jsNumericLooking (s : String) : Bool :=
  let t := jsTrimChars s.data
  isDecimalLiteral t || isRadixIntLiteral t

/-- The lenient check applied to a data value (only strings can pass; the
JS code guards with `type === 'string'`). -/
def jvNumericLooking : JValue → Bool
  | .str s => jsNumericLooking s
  | _ => false

/-! ## The schema tree -/

/-- A schema node, after `INVOICE_SCHEMA`'s shape: every field the
validator reads is present and optional.  A `pattern` is represented by
its source string together with the `RegExp(src).test` function (the
regular-expression engine is an external collaborator of the repository).
JS-falsy declared fields (`type: ""`, `pattern: ""`, `minItems: 0`,
`maxItems: 0`) behave in `validateSchema` exactly like absent ones
(`schema.type &&`, `schema.pattern &&`, `schema.minItems &&`,
`schema.maxItems &&` guards; `RegExp("")` accepts every string), so they
are represented by `none`; `required: []` and an absent `required` are
likewise observationally identical and share the representation `[]`. -/
inductive Schema where
  | mk
    (type : Option String)
    (required : List String)
    (properties : Option (List (String × Schema)))
    (enum : Option (List JValue))
    (pattern : Option (String × (String → Bool)))
    (minItems : Option Nat)
    (maxItems : Option Nat)
    (items : Option Schema)

def Schema.type : Schema → Option String
  | .mk t _ _ _ _ _ _ _ => t

def Schema.required : Schema → List String
  | .mk _ r _ _ _ _ _ _ => r

def Schema.properties : Schema → Option (List (String × Schema))
  | .mk _ _ ps _ _ _ _ _ => ps

def Schema.enum : Schema → Option (List JValue)
  | .mk _ _ _ e _ _ _ _ => e

def Schema.pattern : Schema → Option (String × (String → Bool))
  | .mk _ _ _ _ p _ _ _ => p

def Schema.minItems : Schema → Option Nat
  | .mk _ _ _ _ _ mi _ _ => mi

def Schema.maxItems : Schema → Option Nat
  | .mk _ _ _ _ _ _ ma _ => ma

def Schema.items : Schema → Option Schema
  | .mk _ _ _ _ _ _ _ it => it

/-! ## The validator's error strings (template literals of the source) -/

def typeMsg (path t found : String) : String :=
  path ++ ": Expected type " ++ t ++ " but found " ++ found

def missingMsg (path name : String) : String :=
  path ++ ": Missing required field '" ++ name ++ "'"

def enumMsg (path : String) (v : JValue) (vs : List JValue) : String :=
  path ++ ": Value '" ++ jsToString v ++ "' is not in allowed enum: " ++ jsJoin ", " vs

def patternMsg (path : String) (v : JValue) (src : String) : String :=
  path ++ ": Value '" ++ jsToString v ++ "' does not match pattern " ++ src

def minItemsMsg (path : String) (n m : Nat) : String :=
  path ++ ": Array has " ++ toString n ++ " items, minimum is " ++ toString m

def maxItemsMsg (path : String) (n m : Nat) : String :=
  path ++ ": Array has " ++ toString n ++ " items, maximum is " ++ toString m

/-- Reading a property of a JS object never yields a value bigger than the
object's binding list (absent keys read as `undefined`). -/
theorem jsLookup_sizeOf_le (fields : List (String × JValue)) (k : String) :
    sizeOf (jsLookup fields k) ≤ sizeOf fields := by
  induction fields with
  | nil => simp [jsLookup, List.find?]
  | cons p rest ih =>
    simp only [jsLookup, List.find?]
    cases hp : (p.1 == k) with
    | true =>
      simp only []
      cases p with
      | mk a b => simp; omega
    | false =>
      simp only []
      simp only [jsLookup] at ih
      cases hf : rest.find? (fun p => p.1 == k) with
      | none => simp [hf] at ih ⊢; omega
      | some q => simp [hf] at ih ⊢; omega

/-! ## The validator, as composition of named pieces

To keep proofs tractable, each syntactic piece of the body of
`validateSchema` is a named definition transcribing the corresponding
fragment of the JS source; `validateSchema` composes them with exactly the
source's control flow. -/

/-- The type check at the top of `validateSchema` (step 1 of the source):
`none` when the check passes, `some msg` for the early-returned error.
Comprises the XML-compatibility leniency for numeric-looking strings and
the (unreachable) `number`/`typeof number` exception. -/
def typeErrOf (data : JValue) (sty : Option String) (path : String) : Option String :=
  match sty with
  | none => none
  | some t =>
    if t = "number" ∧ jsCategory data = "string" ∧ jvNumericLooking data then none
    else if jsCategory data ≠ t then
      if t = "number" ∧ jsTypeof data = "number" then none
      else some (typeMsg path t (jsCategory data))
    else none

/-- `if (schema.enum && !schema.enum.includes(data)) errors.push(…)`. -/
def enumErrsOf (data : JValue) (en : Option (List JValue)) (path : String) : List String :=
  match en with
  | some vs => if vs.any (fun v => jvEq v data) then [] else [enumMsg path data vs]
  | none => []

/-- `if (schema.pattern && typeof data === 'string') { … regex.test … }`. -/
def patternErrsOf (data : JValue) (pat : Option (String × (String → Bool)))
    (path : String) : List String :=
  match pat, data with
  | some pt, .str s => if pt.2 s then [] else [patternMsg path (JValue.str s) pt.1]
  | _, _ => []

/-- The `minItems` and `maxItems` bound checks on an array of length
`len`. -/
def boundErrsOf (len : Nat) (mi ma : Option Nat) (path : String) : List String :=
  (match mi with
   | some m => if len < m then [minItemsMsg path len m] else []
   | none => []) ++
  (match ma with
   | some m => if len > m then [maxItemsMsg path len m] else []
   | none => [])

/-- `schema.required.forEach(reqField => { if (!(reqField in data)) … })`:
the missing-required-field errors, in declaration order. -/
def missingErrsOf (fields : List (String × JValue)) (r : List String)
    (path : String) : List String :=
  (r.filter (fun x => !keyIn x fields)).map (fun x => missingMsg path x)

mutual

/-- Shallow embedding of `validateSchema(data, schema, path)` from
`src/validation/jsonSchemaValidator.js`.  The result is `none` when the JS
function throws: that happens exactly when an object-typed schema node with
declared `properties` meets a `null` data node (`reqField in null` and
`null[propKey]` raise `TypeError`). -/
def validateSchema (data : JValue) (schema : Schema) (path : String) :
    Option (List String) :=
  match schema with
  | .mk sty sreq sprops senum spat smin smax sitems =>
    -- 1. Check Type (with the XML numeric-string leniency)
    match typeErrOf data sty path with
    | some e => some [e]
    | none =>
      let ty := jsCategory data
      if ty ≠ "object" ∧ ty ≠ "array" then
        -- primitives: check enum membership and pattern match, then return
        some (enumErrsOf data senum path ++ patternErrsOf data spat path)
      else if ty = "object" then
        -- 2. Check Object Properties (required first, then recursion)
        match sprops with
        | none => some []
        | some props =>
          match data with
          | .obj fields =>
            match validateProps fields props path with
            | none => none
            | some pes => some (missingErrsOf fields sreq path ++ pes)
          | _ =>
            -- `data` is `null`: the `in` operator / property read throws
            if sreq.isEmpty && props.isEmpty then some [] else none
      else
        -- 3. Check Array Items
        match data with
        | .arr xs =>
          match sitems with
          | none => some (boundErrsOf xs.length smin smax path)
          | some isch =>
            match validateItems xs isch path 0 with
            | none => none
            | some ies => some (boundErrsOf xs.length smin smax path ++ ies)
        | _ => some []
termination_by sizeOf schema + sizeOf data
decreasing_by
  all_goals first
    | (simp; omega)
    | simp

/-- The `Object.keys(schema.properties).forEach` loop of `validateSchema`:
recurse into every declared property whose value in the data object is not
`undefined`, concatenating error lists in declaration order; a thrown
exception (`none`) aborts the traversal. -/
def validateProps (fields : List (String × JValue))
    (props : List (String × Schema)) (path : String) : Option (List String) :=
  match props with
  | [] => some []
  | (k, sub) :: rest =>
    match hv : jsLookup fields k with
    | .undef => validateProps fields rest path
    | v =>
      match validateSchema v sub (path ++ "." ++ k) with
      | none => none
      | some es =>
        match validateProps fields rest path with
        | none => none
        | some rs => some (es ++ rs)
termination_by sizeOf props + sizeOf fields
decreasing_by
  all_goals first
    | (simp; omega)
    | (have h := jsLookup_sizeOf_le fields k
       rw [hv] at h
       simp
       omega)
    | simp

/-- The `data.forEach((item, index) => …)` loop of `validateSchema` over an
array; `i` is the index of the head of `xs`. -/
def validateItems (xs : List JValue) (isch : Schema) (path : String) (i : Nat) :
    Option (List String) :=
  match xs with
  | [] => some []
  | x :: rest =>
    match validateSchema x isch (path ++ "[" ++ toString i ++ "]") with
    | none => none
    | some es =>
      match validateItems rest isch path (i + 1) with
      | none => none
      | some rs => some (es ++ rs)
termination_by sizeOf isch + sizeOf xs
decreasing_by
  all_goals first
    | (simp; omega)
    | simp

end

/-! ## Spec-side satisfaction predicate (for the refinement claim) -/

/-- Spec-side type constraint (§4.5 step 1): the runtime category matches
the declared type, or the declared numeric-string leniency applies. -/
def typeOKB (data : JValue) (sty : Option String) : Bool :=
  match sty with
  | none => true
  | some t =>
    jsCategory data == t ||
      (t == "number" && jsCategory data == "string" && jvNumericLooking data)

/-- Spec-side enum constraint: membership when an enum is declared. -/
def enumOKB (data : JValue) (en : Option (List JValue)) : Bool :=
  match en with
  | some vs => vs.any (fun v => jvEq v data)
  | none => true

/-- Spec-side pattern constraint: a declared pattern must accept a string
datum (patterns constrain strings only). -/
def patternOKB (data : JValue) (pat : Option (String × (String → Bool))) : Bool :=
  match pat, data with
  | some pt, .str s => pt.2 s
  | _, _ => true

mutual

/-- Satisfaction of a schema by a data tree, written from the
specification's words (§4.5 of the spec): the type constraint holds (with
the declared numeric-string leniency for `number`); a primitive satisfies
`enum` membership and `pattern` match where declared; an object has every
`required` name present and every schema-declared property that exists in
the data recursively satisfies its sub-schema; an array satisfies the
`minItems`/`maxItems` bounds and all elements satisfy the `items` schema. -/
def satisfiesB (data : JValue) (schema : Schema) : Bool :=
  match schema with
  | .mk sty sreq sprops senum spat smin smax sitems =>
    let ty := jsCategory data
    if !typeOKB data sty then false
    else if ty ≠ "object" ∧ ty ≠ "array" then
      enumOKB data senum && patternOKB data spat
    else if ty = "object" then
      match data with
      | .obj fields =>
        sreq.all (fun r => keyIn r fields) &&
          (match sprops with
           | some props => satisfiesProps fields props
           | none => true)
      | _ =>
        -- `null`: it has no keys, so it satisfies iff nothing is required
        sreq.isEmpty
    else
      match data with
      | .arr xs =>
        (match smin with | some m => decide (m ≤ xs.length) | none => true) &&
        (match smax with | some m => decide (xs.length ≤ m) | none => true) &&
        (match sitems with
         | some isch => satisfiesItems xs isch
         | none => true)
      | _ => true
termination_by sizeOf schema + sizeOf data
decreasing_by
  all_goals first
    | (simp; omega)
    | simp

/-- Every schema-declared property that exists in `fields` satisfies its
sub-schema. -/
def satisfiesProps (fields : List (String × JValue))
    (props : List (String × Schema)) : Bool :=
  match props with
  | [] => true
  | (k, sub) :: rest =>
    (if keyIn k fields then satisfiesB (jsLookup fields k) sub else true) &&
      satisfiesProps fields rest
termination_by sizeOf props + sizeOf fields
decreasing_by
  all_goals first
    | (simp; omega)
    | (have h := jsLookup_sizeOf_le fields k
       simp
       omega)
    | simp

/-- Every element of `xs` satisfies the item schema. -/
def satisfiesItems (xs : List JValue) (isch : Schema) : Bool :=
  match xs with
  | [] => true
  | x :: rest => satisfiesB x isch && satisfiesItems rest isch
termination_by sizeOf isch + sizeOf xs
decreasing_by
  all_goals first
    | (simp; omega)
    | simp

end

/-! ## Well-formedness side conditions -/

mutual

/-- No `null` anywhere in the data tree (the values on which the JS
validator cannot throw). -/
def noNull : JValue → Bool
  | .null => false
  | .obj fs => noNullFields fs
  | .arr xs => noNullElems xs
  | _ => true

def noNullFields : List (String × JValue) → Bool
  | [] => true
  | (_, v) :: rest => noNull v && noNullFields rest

def noNullElems : List JValue → Bool
  | [] => true
  | x :: rest => noNull x && noNullElems rest

end

mutual

/-- Data trees on which JS property semantics and the spec's notion of "a
property that exists" coincide: no `null` anywhere, and no object property
whose stored value is `undefined` (the validator skips such a property,
while its key still counts as present for `in`). -/
def goodData : JValue → Bool
  | .null => false
  | .obj fs => goodFields fs
  | .arr xs => goodElems xs
  | _ => true

def goodFields : List (String × JValue) → Bool
  | [] => true
  | (_, v) :: rest =>
    (match v with | .undef => false | _ => true) && goodData v && goodFields rest

def goodElems : List JValue → Bool
  | [] => true
  | x :: rest => goodData x && goodElems rest

end

mutual

/-- Schema trees in which every node that declares a non-empty `required`
list also declares `properties` (in the JS code the required-field check
is guarded by `if (type === 'object' && schema.properties)`, so without
`properties` the declared `required` names are silently ignored). -/
def reqPropsOK : Schema → Bool
  | .mk _ r ps _ _ _ _ it =>
    (r.isEmpty || ps.isSome) &&
      (match ps with
       | some props => reqPropsOKList props
       | none => true) &&
      (match it with
       | some isch => reqPropsOK isch
       | none => true)

def reqPropsOKList : List (String × Schema) → Bool
  | [] => true
  | (_, s) :: rest => reqPropsOK s && reqPropsOKList rest

end

/-! ## `INVOICE_SCHEMA` -/

/-- One ASCII uppercase letter (`[A-Z]`). -/
def isUpperAZ (c : Char) : Bool := 'A' ≤ c && c ≤ 'Z'

/-- The GSTIN regular expression
`^[0-9]{2}[A-Z]{5}[0-9]{4}[A-Z]{1}[1-9A-Z]{1}Z[0-9A-Z]{1}$` as a test
function: exactly 15 characters with the positional character classes. -/
def gstinTest (s : String) : Bool :=
  match s.data with
  | [c0, c1, c2, c3, c4, c5, c6, c7, c8, c9, c10, c11, c12, c13, c14] =>
    c0.isDigit && c1.isDigit &&
    isUpperAZ c2 && isUpperAZ c3 && isUpperAZ c4 && isUpperAZ c5 && isUpperAZ c6 &&
    c7.isDigit && c8.isDigit && c9.isDigit && c10.isDigit &&
    isUpperAZ c11 &&
    (('1' ≤ c12 && c12 ≤ '9') || isUpperAZ c12) &&
    c13 == 'Z' &&
    (c14.isDigit || isUpperAZ c14)
  | _ => false

/-- The source text of the GSTIN pattern as it appears in the schema. -/
def gstinPatternSrc : String :=
  "^[0-9]\x7b2\x7d[A-Z]\x7b5\x7d[0-9]\x7b4\x7d[A-Z]\x7b1\x7d[1-9A-Z]\x7b1\x7dZ[0-9A-Z]\x7b1\x7d$"

/-- Leaf schema `{ type: "string" }`. -/
def strSchema : Schema := .mk (some "string") [] none none none none none none

/-- Leaf schema `{ type: "number" }`. -/
def numSchema : Schema := .mk (some "number") [] none none none none none none

/-- Leaf schema `{ type: "string", enum: […] }`. -/
def strEnum (vs : List String) : Schema :=
  .mk (some "string") [] none (some (vs.map JValue.str)) none none none none

/-- The `items` schema of `ItemList` in `INVOICE_SCHEMA`. -/
def itemSchema : Schema :=
  .mk (some "object")
    ["SlNo", "PrdDesc", "HsnCd", "Qty", "Unit", "UnitPrice", "TotAmt",
     "AssAmt", "GstRt", "IgstAmt", "CgstAmt", "SgstAmt", "TotItemVal"]
    (some [
      ("SlNo", strSchema),
      ("PrdDesc", strSchema),
      ("HsnCd", strSchema),
      ("Qty", numSchema),
      ("Unit", strSchema),
      ("UnitPrice", numSchema),
      ("TotAmt", numSchema),
      ("AssAmt", numSchema),
      ("GstRt", numSchema),
      ("IgstAmt", numSchema),
      ("CgstAmt", numSchema),
      ("SgstAmt", numSchema),
      ("TotItemVal", numSchema)])
    none none none none none

/-- The `ItemList` schema of `INVOICE_SCHEMA`:
`{ type: "array", minItems: 1, maxItems: 1000, items: … }`. -/
def itemListSchema : Schema :=
  .mk (some "array") [] none none none (some 1) (some 1000) (some itemSchema)

/-- `INVOICE_SCHEMA` from `src/validation/jsonSchemaValidator.js`,
transcribed field by field (constructor argument order:
type, required, properties, enum, pattern, minItems, maxItems, items). -/
def INVOICE_SCHEMA : Schema :=
  .mk (some "object")
    ["Version", "TranDtls", "DocDtls", "SellerDtls", "BuyerDtls", "ItemList", "ValDtls"]
    (some [
      ("Version", strEnum ["1.1"]),
      ("TranDtls", .mk (some "object") ["SupTyp", "RegRev"]
        (some [
          ("SupTyp", strEnum ["B2B", "SEZWP", "SEZWOP", "EXPWP", "EXPWOP", "DEXP"]),
          ("RegRev", strEnum ["Y", "N"])])
        none none none none none),
      ("DocDtls", .mk (some "object") ["Typ", "No", "Dt"]
        (some [
          ("Typ", strEnum ["INV", "CRN", "DBN"]),
          ("No", strSchema),
          ("Dt", strSchema)])
        none none none none none),
      ("SellerDtls", .mk (some "object") ["Gstin", "LglNm", "Stcd"]
        (some [
          ("Gstin", .mk (some "string") [] none none
            (some (gstinPatternSrc, gstinTest)) none none none),
          ("LglNm", strSchema),
          ("Stcd", strSchema)])
        none none none none none),
      ("BuyerDtls", .mk (some "object") ["Gstin", "LglNm", "Stcd", "Pos"]
        (some [
          ("Gstin", strSchema),
          ("LglNm", strSchema),
          ("Stcd", strSchema),
          ("Pos", strSchema)])
        none none none none none),
      ("ItemList", itemListSchema),
      ("ValDtls", .mk (some "object") ["AssVal", "CgstVal", "SgstVal", "IgstVal", "TotInvVal"]
        (some [
          ("AssVal", numSchema),
          ("CgstVal", numSchema),
          ("SgstVal", numSchema),
          ("IgstVal", numSchema),
          ("TotInvVal", numSchema)])
        none none none none none)])
    none none none none none

/-! ## The `POST /validate` route of `src/routes/xmlInvoice.js` (post-parse stage) -/

/-- JS member access `v.k`: reading a property of `null` or `undefined`
throws a `TypeError` (`none`); objects read normally; every other value
(primitives — and arrays, which carry no named properties in this model)
yields `undefined`. -/
def jsGet : JValue → String → Option JValue
  | .null, _ => none
  | .undef, _ => none
  | .obj fs, k => some (jsLookup fs k)
  | _, _ => some (JValue.undef)

/-- Assignment `fields[k] = v` on an object's bindings: overwrite the
first binding of `k` in place, or append a new binding. -/
def setField : List (String × JValue) → String → JValue → List (String × JValue)
  | [], k, nv => [(k, nv)]
  | (k1, v1) :: rest, k, nv =>
    if k1 == k then (k1, nv) :: rest else (k1, v1) :: setField rest k nv

/-- Assignment `v.k = nv` on a JS value (the route only ever assigns to an
object; other values are returned unchanged). -/
def jsSetKey : JValue → String → JValue → JValue
  | .obj fs, k, nv => .obj (setField fs k nv)
  | v, _, _ => v

/-- The `normalize` helper of the `POST /validate` handler (the name
`normalize` itself is taken by Mathlib): an object whose `_text` member is
defined collapses to that value; arrays and other objects are normalized
recursively (keeping key order); everything else passes through
unchanged. -/
def normalizeXml (v : JValue) : JValue :=
  match v with
  | .obj fs =>
    match jsLookup fs "_text" with
    | .undef => .obj (fs.attach.map (fun p => (p.1.1, normalizeXml p.1.2)))
    | t => t
  | .arr xs => .arr (xs.attach.map (fun p => normalizeXml p.1))
  | x => x
termination_by sizeOf v
decreasing_by
  · obtain ⟨⟨a, b⟩, hm⟩ := p
    have h1 := List.sizeOf_lt_of_mem hm
    simp at h1 ⊢
    omega
  · obtain ⟨x, hm⟩ := p
    have h1 := List.sizeOf_lt_of_mem hm
    simp
    omega

/-- The `ItemList` rewrite of the handler:
`if (cleanData.ItemList && cleanData.ItemList.Item)` — an `Item` that is
already an array is installed as `ItemList` unchanged, any other truthy
`Item` is wrapped in a one-element array; otherwise the data is left
alone.  `none` models a thrown `TypeError`. -/
def fixItemList (cleanData : JValue) : Option JValue :=
  match jsGet cleanData "ItemList" with
  | none => none
  | some il =>
    if jsTruthy il then
      match jsGet il "Item" with
      | none => none
      | some item =>
        if jsTruthy item then
          match item with
          | .arr xs => some (jsSetKey cleanData "ItemList" (.arr xs))
          | _ => some (jsSetKey cleanData "ItemList" (.arr [item]))
        else some cleanData
    else some cleanData

/-- `errors.map(err => `<Error>${err}</Error>`).join('')`. -/
def errorTags (errors : List String) : String :=
  String.join (errors.map (fun e => "<Error>" ++ e ++ "</Error>"))

/-- Body sent when schema validation fails, transcribed from the template
literal of the route (including its whitespace).  Note: the code opens an
`<Errors>` tag and never closes it. -/
def invalidBody (errors : List String) : String :=
  "\n                 <ValidationResponse>\n                    <Valid>false</Valid>\n                    <Message>Validation Failed</Message>\n                    <Errors>\n                        " ++
    errorTags errors ++
    "\n                 </ValidationResponse>\n             "

/-- Body sent when schema validation succeeds. -/
def validBody : String :=
  "\n                 <ValidationResponse>\n                    <Valid>true</Valid>\n                    <Message>XML is valid against the Invoice Schema</Message>\n                 </ValidationResponse>\n             "

/-- 400 body sent when the parsed XML has no `Invoice` root. -/
def rootErrBody : String :=
  "\n                <ValidationResponse>\n                    <Valid>false</Valid>\n                    <Errors>\n                        <Error>XML root must be &lt;Invoice&gt;</Error>\n                    </Errors>\n                </ValidationResponse>\n            "

/-- 400 body of the route's `catch` block.  The interpolated
`error.message` is runtime-dependent and no claim depends on it, so it is
a parameter. -/
def catchBody (msg : String) : String :=
  "\n            <ValidationResponse>\n                <Valid>false</Valid>\n                <Errors>\n                    <Error>Invalid XML Format: " ++ msg ++
    "</Error>\n                </Errors>\n            </ValidationResponse>\n        "

/-- Stand-in for the message of a thrown `TypeError`; its exact content is
runtime-dependent and unused by every claim. -/
def thrownMsg : String := "Cannot use 'in' operator to search for a field in null"

/-- The post-parse stage of the `POST /validate` handler: given the field
list of the object produced by `xml2js`, check the `Invoice` root,
`normalize` it, rewrite `ItemList`, validate against `INVOICE_SCHEMA` and
build the `(status, body)` response.  `res.send` without `res.status`
responds with HTTP 200; exceptions land in the `catch` block (400). -/
def postValidateParsed (result : List (String × JValue)) : Nat × String :=
  let inv := jsLookup result "Invoice"
  if !jsTruthy inv then
    (400, rootErrBody)
  else
    let cleanData := normalizeXml inv
    match fixItemList cleanData with
    | none => (400, catchBody thrownMsg)
    | some fixedData =>
      match validateSchema fixedData INVOICE_SCHEMA "root" with
      | none => (400, catchBody thrownMsg)
      | some errors =>
        if errors.length > 0 then (200, invalidBody errors)
        else (200, validBody)

/-! ## A tag-balance check (necessary condition for XML well-formedness) -/

/-- One-pass scan of the tags `<…>` of an XML text: `(isClosingTag,
tagText)` for each tag group, in order.  `acc` is `some` the characters
read so far inside an open `<…` group (in reverse), `none` outside tags.
Structurally recursive so that concrete instances evaluate by `decide`. -/
def xmlScan : List Char → Option (List Char) → List (Bool × List Char)
  | [], _ => []
  | c :: rest, none =>
    if c = '<' then xmlScan rest (some []) else xmlScan rest none
  | c :: rest, some acc =>
    if c = '>' then
      (match acc.reverse with
       | '/' :: n => (true, n)
       | n => (false, n)) :: xmlScan rest none
    else xmlScan rest (some (c :: acc))

/-- Stack-based matching of open/close tags. -/
def tagsBalanced : List (Bool × List Char) → List (List Char) → Bool
  | [], [] => true
  | [], _ :: _ => false
  | (false, n) :: ts, stack => tagsBalanced ts (n :: stack)
  | (true, n) :: ts, top :: stack => n == top && tagsBalanced ts stack
  | (true, _) :: _, [] => false

/-- Every tag opened in `s` is closed, in properly nested order — a
necessary condition for `s` to be a well-formed XML document. -/
def xmlBalanced (s : String) : Bool :=
  tagsBalanced (xmlScan s.data none) []

/-! ## Basic lemmas about the validator -/

theorem jsCategory_of_typeof_number (data : JValue)
    (h : jsTypeof data = "number") : jsCategory data = "number" := by
  cases data <;> simp_all [jsTypeof, jsCategory]

/-- The type check passes exactly when the spec-side type constraint holds
(the source's `number`/`typeof number` exception is subsumed: a value of
`typeof` `"number"` has category `"number"`). -/
theorem typeErr_none_iff (data : JValue) (sty : Option String) (path : String) :
    typeErrOf data sty path = none ↔ typeOKB data sty = true := by
  cases sty with
  | none => simp [typeErrOf, typeOKB]
  | some t =>
    by_cases h1 : t = "number" ∧ jsCategory data = "string" ∧ jvNumericLooking data = true
    · simp [typeErrOf, typeOKB, h1, h1.1, h1.2.1, h1.2.2]
    · by_cases h2 : jsCategory data = t
      · simp [typeErrOf, typeOKB, h1, h2]
      · by_cases h3 : t = "number" ∧ jsTypeof data = "number"
        · exact absurd ((jsCategory_of_typeof_number data h3.2).trans h3.1.symm) h2
        · simp [typeErrOf, typeOKB, h1, h2, h3]
          intro ha hb
          cases hc : jvNumericLooking data
          · rfl
          · exact absurd ⟨ha, hb, hc⟩ h1

theorem noNull_jsLookup (fields : List (String × JValue)) (k : String)
    (h : noNullFields fields = true) : noNull (jsLookup fields k) = true := by
  induction fields with
  | nil => simp [jsLookup, List.find?, noNull]
  | cons p rest ih =>
    obtain ⟨a, b⟩ := p
    simp only [noNullFields, Bool.and_eq_true] at h
    simp only [jsLookup, List.find?]
    cases hp : (a == k) <;> simp only []
    · exact ih h.2
    · exact h.1

/-- On good data, a property read yields good data, and reads `undefined`
exactly when the key is absent. -/
theorem good_lookup (fields : List (String × JValue)) (k : String)
    (h : goodFields fields = true) :
    goodData (jsLookup fields k) = true ∧
      (jsLookup fields k = .undef ↔ keyIn k fields = false) := by
  induction fields with
  | nil => simp [jsLookup, List.find?, goodData, keyIn]
  | cons p rest ih =>
    obtain ⟨a, b⟩ := p
    simp only [goodFields, Bool.and_eq_true] at h
    obtain ⟨⟨hbu, hbg⟩, hrest⟩ := h
    have hb_ne : b ≠ .undef := by cases b <;> simp_all
    have ihr := ih hrest
    simp only [jsLookup, List.find?, keyIn, List.any_cons] at ihr ⊢
    cases hp : (a == k) <;> simp only [hp]
    · simpa using ihr
    · simpa using ⟨hbg, hb_ne⟩

set_option maxHeartbeats 1000000 in
/-- One-step unfolding of `validateSchema` for an arbitrary schema node
(the automatically generated equations are specialised per constructor
shape; this lemma restates the body generically). -/
theorem validateSchema_unfold (data : JValue) (sty : Option String) (r : List String)
    (ps : Option (List (String × Schema))) (en : Option (List JValue))
    (pat : Option (String × (String → Bool))) (mi ma : Option Nat) (it : Option Schema)
    (path : String) :
    validateSchema data (.mk sty r ps en pat mi ma it) path =
      (match typeErrOf data sty path with
       | some e => some [e]
       | none =>
         if jsCategory data ≠ "object" ∧ jsCategory data ≠ "array" then
           some (enumErrsOf data en path ++ patternErrsOf data pat path)
         else if jsCategory data = "object" then
           match ps with
           | none => some []
           | some props =>
             match data with
             | .obj fields =>
               match validateProps fields props path with
               | none => none
               | some pes => some (missingErrsOf fields r path ++ pes)
             | _ => if r.isEmpty && props.isEmpty then some [] else none
         else
           match data with
           | .arr xs =>
             match it with
             | none => some (boundErrsOf xs.length mi ma path)
             | some isch =>
               match validateItems xs isch path 0 with
               | none => none
               | some ies => some (boundErrsOf xs.length mi ma path ++ ies)
           | _ => some []) := by
  cases data <;> cases ps <;> cases it <;> simp [validateSchema, jsCategory, jsTypeof]

theorem val_step_type_fail (data : JValue) (path : String) (sty : Option String)
    (r : List String) (ps : Option (List (String × Schema))) (en : Option (List JValue))
    (pat : Option (String × (String → Bool))) (mi ma : Option Nat) (it : Option Schema)
    (e : String) (he : typeErrOf data sty path = some e) :
    validateSchema data (.mk sty r ps en pat mi ma it) path = some [e] := by
  rw [validateSchema_unfold, he]

theorem val_step_prim (data : JValue) (path : String) (sty : Option String)
    (r : List String) (ps : Option (List (String × Schema))) (en : Option (List JValue))
    (pat : Option (String × (String → Bool))) (mi ma : Option Nat) (it : Option Schema)
    (ht : typeErrOf data sty path = none)
    (h1 : jsCategory data ≠ "object") (h2 : jsCategory data ≠ "array") :
    validateSchema data (.mk sty r ps en pat mi ma it) path =
      some (enumErrsOf data en path ++ patternErrsOf data pat path) := by
  rw [validateSchema_unfold, ht]
  simp [h1, h2]

theorem val_step_obj (fields : List (String × JValue)) (path : String)
    (sty : Option String) (r : List String) (props : List (String × Schema))
    (en : Option (List JValue)) (pat : Option (String × (String → Bool)))
    (mi ma : Option Nat) (it : Option Schema)
    (ht : typeErrOf (.obj fields) sty path = none) :
    validateSchema (.obj fields) (.mk sty r (some props) en pat mi ma it) path =
      (match validateProps fields props path with
       | none => none
       | some pes => some (missingErrsOf fields r path ++ pes)) := by
  rw [validateSchema_unfold, ht]
  simp [jsCategory, jsTypeof]

theorem val_step_obj_noprops (data : JValue) (path : String)
    (sty : Option String) (r : List String)
    (en : Option (List JValue)) (pat : Option (String × (String → Bool)))
    (mi ma : Option Nat) (it : Option Schema)
    (ht : typeErrOf data sty path = none) (hc : jsCategory data = "object") :
    validateSchema data (.mk sty r none en pat mi ma it) path = some [] := by
  rw [validateSchema_unfold, ht]
  simp [hc]

theorem val_step_null (path : String)
    (sty : Option String) (r : List String) (props : List (String × Schema))
    (en : Option (List JValue)) (pat : Option (String × (String → Bool)))
    (mi ma : Option Nat) (it : Option Schema)
    (ht : typeErrOf .null sty path = none) :
    validateSchema .null (.mk sty r (some props) en pat mi ma it) path =
      (if r.isEmpty && props.isEmpty then some [] else none) := by
  rw [validateSchema_unfold, ht]
  simp [jsCategory, jsTypeof]

theorem val_step_arr (xs : List JValue) (path : String)
    (sty : Option String) (r : List String) (ps : Option (List (String × Schema)))
    (en : Option (List JValue)) (pat : Option (String × (String → Bool)))
    (mi ma : Option Nat) (it : Option Schema)
    (ht : typeErrOf (.arr xs) sty path = none) :
    validateSchema (.arr xs) (.mk sty r ps en pat mi ma it) path =
      (match it with
       | none => some (boundErrsOf xs.length mi ma path)
       | some isch =>
         match validateItems xs isch path 0 with
         | none => none
         | some ies => some (boundErrsOf xs.length mi ma path ++ ies)) := by
  rw [validateSchema_unfold, ht]
  simp [jsCategory]

theorem validateProps_cons (fields : List (String × JValue)) (k : String) (sub : Schema)
    (rest : List (String × Schema)) (path : String) :
    validateProps fields ((k, sub) :: rest) path =
      (if jsLookup fields k = .undef then validateProps fields rest path
       else
         match validateSchema (jsLookup fields k) sub (path ++ "." ++ k) with
         | none => none
         | some es =>
           match validateProps fields rest path with
           | none => none
           | some rs => some (es ++ rs)) := by
  simp only [validateProps]
  split
  · rename_i heq
    rw [if_pos heq]
  · rename_i hne
    rw [if_neg hne]

theorem validateItems_cons (x : JValue) (xs : List JValue) (isch : Schema)
    (path : String) (i : Nat) :
    validateItems (x :: xs) isch path i =
      (match validateSchema x isch (path ++ "[" ++ toString i ++ "]") with
       | none => none
       | some es =>
         match validateItems xs isch path (i + 1) with
         | none => none
         | some rs => some (es ++ rs)) := by
  simp [validateItems]

theorem validateProps_nil (fields : List (String × JValue)) (path : String) :
    validateProps fields [] path = some [] := by
  simp [validateProps]

theorem validateItems_nil (isch : Schema) (path : String) (i : Nat) :
    validateItems [] isch path i = some [] := by
  simp [validateItems]

theorem validateSchema_total_n :
    ∀ (n : Nat) (data : JValue), sizeOf data < n → noNull data = true →
      ∀ (schema : Schema) (path : String), (validateSchema data schema path).isSome = true := by
  intro n
  induction n with
  | zero => intro data h; omega
  | succ n ih =>
    intro data hlt hnn schema path
    obtain ⟨sty, r, ps, en, pat, mi, ma, it⟩ := schema
    cases hte : typeErrOf data sty path with
    | some e =>
      rw [val_step_type_fail data path sty r ps en pat mi ma it e hte]
      rfl
    | none =>
      cases data with
      | null => simp [noNull] at hnn
      | obj fields =>
        have hnf : noNullFields fields = true := by simpa [noNull] using hnn
        have hszf : sizeOf fields < n := by simp at hlt; omega
        have hprops : ∀ (props' : List (String × Schema)),
            (validateProps fields props' path).isSome = true := by
          intro props'
          induction props' with
          | nil => simp [validateProps_nil]
          | cons kv rest ihp =>
            obtain ⟨k, sub⟩ := kv
            rw [validateProps_cons]
            by_cases hk : jsLookup fields k = .undef
            · rw [if_pos hk]; exact ihp
            · rw [if_neg hk]
              have hsz : sizeOf (jsLookup fields k) < n := by
                have := jsLookup_sizeOf_le fields k
                omega
              have hv := ih (jsLookup fields k) hsz (noNull_jsLookup fields k hnf)
                sub (path ++ "." ++ k)
              cases hvv : validateSchema (jsLookup fields k) sub (path ++ "." ++ k) with
              | none => rw [hvv] at hv; simp at hv
              | some es =>
                cases hpp : validateProps fields rest path with
                | none => rw [hpp] at ihp; simp at ihp
                | some rs => simp [hvv, hpp]
        cases ps with
        | none =>
          rw [val_step_obj_noprops _ _ _ _ _ _ _ _ _ hte rfl]
          rfl
        | some props =>
          rw [val_step_obj _ _ _ _ _ _ _ _ _ _ hte]
          cases hpp : validateProps fields props path with
          | none =>
            have := hprops props
            rw [hpp] at this
            simp at this
          | some pes => simp
      | arr xs =>
        rw [val_step_arr _ _ _ _ _ _ _ _ _ _ hte]
        cases it with
        | none => rfl
        | some isch =>
          have hne : noNullElems xs = true := by simpa [noNull] using hnn
          have hszx : sizeOf xs < n := by simp at hlt; omega
          have hitems : ∀ (ys : List JValue), noNullElems ys = true →
              sizeOf ys ≤ sizeOf xs →
              ∀ i, (validateItems ys isch path i).isSome = true := by
            intro ys
            induction ys with
            | nil => intro _ _ i; simp [validateItems_nil]
            | cons y rest ihy =>
              intro hys hsy i
              rw [validateItems_cons]
              obtain ⟨hy, hrest⟩ : noNull y = true ∧ noNullElems rest = true := by
                simpa [noNullElems] using hys
              have hsy2 : sizeOf y < n := by
                simp at hsy
                omega
              have hv := ih y hsy2 hy isch (path ++ "[" ++ toString i ++ "]")
              cases hvv : validateSchema y isch (path ++ "[" ++ toString i ++ "]") with
              | none => rw [hvv] at hv; simp at hv
              | some es =>
                have hrec := ihy hrest (by simp at hsy ⊢; omega) (i + 1)
                cases hii : validateItems rest isch path (i + 1) with
                | none => rw [hii] at hrec; simp at hrec
                | some rs => simp [hvv, hii]
          have := hitems xs hne (by omega) 0
          cases hii : validateItems xs isch path 0 with
          | none => rw [hii] at this; simp at this
          | some ies => simp [hii]
      | undef =>
        rw [val_step_prim _ _ _ _ _ _ _ _ _ _ hte (by simp [jsCategory, jsTypeof]) (by simp [jsCategory, jsTypeof])]
        rfl
      | bool b =>
        rw [val_step_prim _ _ _ _ _ _ _ _ _ _ hte (by simp [jsCategory, jsTypeof]) (by simp [jsCategory, jsTypeof])]
        rfl
      | num m =>
        rw [val_step_prim _ _ _ _ _ _ _ _ _ _ hte (by simp [jsCategory, jsTypeof]) (by simp [jsCategory, jsTypeof])]
        rfl
      | str s =>
        rw [val_step_prim _ _ _ _ _ _ _ _ _ _ hte (by simp [jsCategory, jsTypeof]) (by simp [jsCategory, jsTypeof])]
        rfl

/-- Totality of the validator off the throwing case: on data without
`null` the JS function always returns an error list. -/
theorem validateSchema_total (data : JValue) (schema : Schema) (path : String)
    (h : noNull data = true) : (validateSchema data schema path).isSome = true :=
  validateSchema_total_n (sizeOf data + 1) data (by omega) h schema path

theorem good_noNull : ∀ (data : JValue), goodData data = true → noNull data = true := by
  apply goodData.induct
    (fun data => goodData data = true → noNull data = true)
    (fun xs => goodElems xs = true → noNullElems xs = true)
    (fun fs => goodFields fs = true → noNullFields fs = true)
  all_goals intros
  all_goals simp_all [goodData, goodFields, goodElems, noNull, noNullFields, noNullElems]

theorem enumErrs_nil_iff (data : JValue) (en : Option (List JValue)) (path : String) :
    enumErrsOf data en path = [] ↔ enumOKB data en = true := by
  cases en with
  | none => simp [enumErrsOf, enumOKB]
  | some vs =>
    simp only [enumErrsOf, enumOKB]
    split <;> simp_all

theorem patternErrs_nil_iff (data : JValue) (pat : Option (String × (String → Bool)))
    (path : String) :
    patternErrsOf data pat path = [] ↔ patternOKB data pat = true := by
  cases pat with
  | none => cases data <;> simp [patternErrsOf, patternOKB]
  | some pt =>
    cases data with
    | str s =>
      simp only [patternErrsOf, patternOKB]
      split <;> simp_all
    | undef => simp [patternErrsOf, patternOKB]
    | null => simp [patternErrsOf, patternOKB]
    | bool b => simp [patternErrsOf, patternOKB]
    | num n => simp [patternErrsOf, patternOKB]
    | arr xs => simp [patternErrsOf, patternOKB]
    | obj fs => simp [patternErrsOf, patternOKB]

theorem boundErrs_nil_iff (len : Nat) (mi ma : Option Nat) (path : String) :
    boundErrsOf len mi ma path = [] ↔
      ((match mi with | some m => decide (m ≤ len) | none => true) &&
       (match ma with | some m => decide (len ≤ m) | none => true)) = true := by
  cases mi <;> cases ma <;> simp [boundErrsOf] <;> omega

theorem missing_nil_iff (fields : List (String × JValue)) (r : List String) (path : String) :
    missingErrsOf fields r path = [] ↔ r.all (fun x => keyIn x fields) = true := by
  simp [missingErrsOf, List.filter_eq_nil_iff]

theorem reqPropsOK_parts (sty : Option String) (r : List String)
    (ps : Option (List (String × Schema))) (en : Option (List JValue))
    (pat : Option (String × (String → Bool))) (mi ma : Option Nat) (it : Option Schema)
    (h : reqPropsOK (.mk sty r ps en pat mi ma it) = true) :
    (r.isEmpty || ps.isSome) = true ∧
    (∀ props, ps = some props → reqPropsOKList props = true) ∧
    (∀ isch, it = some isch → reqPropsOK isch = true) := by
  cases ps <;> cases it <;> simp_all [reqPropsOK]

theorem reqPropsOKList_mem (props : List (String × Schema))
    (h : reqPropsOKList props = true) (k : String) (sub : Schema)
    (hm : (k, sub) ∈ props) : reqPropsOK sub = true := by
  induction props with
  | nil => simp at hm
  | cons kv rest ih =>
    obtain ⟨a, b⟩ := kv
    simp only [reqPropsOKList, Bool.and_eq_true] at h
    rcases List.mem_cons.mp hm with hh | hh
    · cases hh; exact h.1
    · exact ih h.2 hh

set_option maxHeartbeats 2000000 in
theorem satisfiesB_unfold (data : JValue) (sty : Option String) (r : List String)
    (ps : Option (List (String × Schema))) (en : Option (List JValue))
    (pat : Option (String × (String → Bool))) (mi ma : Option Nat) (it : Option Schema) :
    satisfiesB data (.mk sty r ps en pat mi ma it) =
      (if !typeOKB data sty then false
       else if jsCategory data ≠ "object" ∧ jsCategory data ≠ "array" then
         enumOKB data en && patternOKB data pat
       else if jsCategory data = "object" then
         match data with
         | .obj fields =>
           r.all (fun x => keyIn x fields) &&
             (match ps with
              | some props => satisfiesProps fields props
              | none => true)
         | _ => r.isEmpty
       else
         match data with
         | .arr xs =>
           (match mi with | some m => decide (m ≤ xs.length) | none => true) &&
           (match ma with | some m => decide (xs.length ≤ m) | none => true) &&
           (match it with | some isch => satisfiesItems xs isch | none => true)
         | _ => true) := by
  cases data <;> cases ps <;> cases it <;> cases mi <;> cases ma <;>
    simp [satisfiesB, jsCategory, jsTypeof]

theorem satisfiesProps_nil (fields : List (String × JValue)) :
    satisfiesProps fields [] = true := by
  simp [satisfiesProps]

theorem satisfiesProps_cons (fields : List (String × JValue)) (k : String) (sub : Schema)
    (rest : List (String × Schema)) :
    satisfiesProps fields ((k, sub) :: rest) =
      ((if keyIn k fields then satisfiesB (jsLookup fields k) sub else true) &&
        satisfiesProps fields rest) := by
  simp [satisfiesProps]

theorem satisfiesItems_nil (isch : Schema) : satisfiesItems [] isch = true := by
  simp [satisfiesItems]

theorem satisfiesItems_cons (x : JValue) (xs : List JValue) (isch : Schema) :
    satisfiesItems (x :: xs) isch = (satisfiesB x isch && satisfiesItems xs isch) := by
  simp [satisfiesItems]

set_option maxHeartbeats 2000000 in
theorem validate_empty_iff_n :
    ∀ (n : Nat) (data : JValue), sizeOf data < n → goodData data = true →
      ∀ (schema : Schema) (path : String), reqPropsOK schema = true →
        (validateSchema data schema path = some [] ↔ satisfiesB data schema = true) := by
  intro n
  induction n with
  | zero => intro data h; omega
  | succ n ih =>
    intro data hlt hgd schema path hrp
    obtain ⟨sty, r, ps, en, pat, mi, ma, it⟩ := schema
    obtain ⟨hrp1, hrp2, hrp3⟩ := reqPropsOK_parts sty r ps en pat mi ma it hrp
    rw [satisfiesB_unfold]
    cases hte : typeErrOf data sty path with
    | some e =>
      rw [val_step_type_fail data path sty r ps en pat mi ma it e hte]
      have hok : typeOKB data sty = false := by
        cases hk : typeOKB data sty
        · rfl
        · rw [← typeErr_none_iff data sty path, hte] at hk
          simp at hk
      simp [hok]
    | none =>
      have hok : typeOKB data sty = true := (typeErr_none_iff data sty path).mp hte
      cases data with
      | null => simp [goodData] at hgd
      | undef =>
        rw [val_step_prim _ _ _ _ _ _ _ _ _ _ hte (by simp [jsCategory, jsTypeof]) (by simp [jsCategory, jsTypeof])]
        simp [hok, jsCategory, jsTypeof, List.append_eq_nil, enumErrs_nil_iff,
          patternErrs_nil_iff, Bool.and_eq_true]
      | bool b =>
        rw [val_step_prim _ _ _ _ _ _ _ _ _ _ hte (by simp [jsCategory, jsTypeof]) (by simp [jsCategory, jsTypeof])]
        simp [hok, jsCategory, jsTypeof, List.append_eq_nil, enumErrs_nil_iff,
          patternErrs_nil_iff, Bool.and_eq_true]
      | num m =>
        rw [val_step_prim _ _ _ _ _ _ _ _ _ _ hte (by simp [jsCategory, jsTypeof]) (by simp [jsCategory, jsTypeof])]
        simp [hok, jsCategory, jsTypeof, List.append_eq_nil, enumErrs_nil_iff,
          patternErrs_nil_iff, Bool.and_eq_true]
      | str s =>
        rw [val_step_prim _ _ _ _ _ _ _ _ _ _ hte (by simp [jsCategory, jsTypeof]) (by simp [jsCategory, jsTypeof])]
        simp [hok, jsCategory, jsTypeof, List.append_eq_nil, enumErrs_nil_iff,
          patternErrs_nil_iff, Bool.and_eq_true]
      | obj fields =>
        have hgf : goodFields fields = true := by simpa [goodData] using hgd
        cases ps with
        | none =>
          rw [val_step_obj_noprops _ _ _ _ _ _ _ _ _ hte rfl]
          have hre : r = [] := by
            simpa using hrp1
          simp [hre, hok, jsCategory, jsTypeof]
        | some props =>
          rw [val_step_obj _ _ _ _ _ _ _ _ _ _ hte]
          have hrl : reqPropsOKList props = true := hrp2 props rfl
          have hpr : ∀ (props' : List (String × Schema)), reqPropsOKList props' = true →
              ∃ pes, validateProps fields props' path = some pes ∧
                (pes = [] ↔ satisfiesProps fields props' = true) := by
            intro props' hl
            induction props' with
            | nil => exact ⟨[], validateProps_nil fields path, by simp [satisfiesProps_nil]⟩
            | cons kv rest ihp =>
              obtain ⟨k, sub⟩ := kv
              simp only [reqPropsOKList, Bool.and_eq_true] at hl
              obtain ⟨hsub, hrest⟩ := hl
              obtain ⟨pes, hp1, hp2⟩ := ihp hrest
              rw [validateProps_cons, satisfiesProps_cons]
              obtain ⟨hgl, hul⟩ := good_lookup fields k hgf
              by_cases hk : jsLookup fields k = .undef
              · have hki : keyIn k fields = false := hul.mp hk
                rw [if_pos hk, hp1, hki]
                exact ⟨pes, rfl, by simp [hp2]⟩
              · have hki : keyIn k fields = true := by
                  cases hkk : keyIn k fields
                  · exact absurd (hul.mpr hkk) hk
                  · rfl
                rw [if_neg hk, hki]
                have hsz : sizeOf (jsLookup fields k) < n := by
                  have := jsLookup_sizeOf_le fields k
                  simp at hlt
                  omega
                have hiff := ih (jsLookup fields k) hsz hgl sub (path ++ "." ++ k) hsub
                have htot := validateSchema_total (jsLookup fields k) sub (path ++ "." ++ k)
                  (good_noNull _ hgl)
                cases hvv : validateSchema (jsLookup fields k) sub (path ++ "." ++ k) with
                | none => rw [hvv] at htot; simp at htot
                | some es =>
                  rw [hvv] at hiff
                  rw [hp1]
                  refine ⟨es ++ pes, rfl, ?_⟩
                  simp only [Option.some_inj] at hiff
                  simp [List.append_eq_nil, hp2, ← hiff, Bool.and_eq_true]
          obtain ⟨pes, hp1, hp2⟩ := hpr props hrl
          rw [hp1]
          simp [hok, jsCategory, jsTypeof, List.append_eq_nil, missing_nil_iff, hp2,
            Bool.and_eq_true]
      | arr xs =>
        rw [val_step_arr _ _ _ _ _ _ _ _ _ _ hte]
        have hge : goodElems xs = true := by simpa [goodData] using hgd
        cases it with
        | none =>
          simp only [hok, jsCategory]
          have := boundErrs_nil_iff xs.length mi ma path
          simp [this, Bool.and_eq_true]
        | some isch =>
          have hri : reqPropsOK isch = true := hrp3 isch rfl
          have hsx : sizeOf xs < n := by simp at hlt; omega
          have hit : ∀ (ys : List JValue), goodElems ys = true → sizeOf ys ≤ sizeOf xs →
              ∀ i, ∃ ies, validateItems ys isch path i = some ies ∧
                (ies = [] ↔ satisfiesItems ys isch = true) := by
            intro ys
            induction ys with
            | nil => intro _ _ i; exact ⟨[], validateItems_nil isch path i, by simp [satisfiesItems_nil]⟩
            | cons y rest ihy =>
              intro hys hsy i
              obtain ⟨hy, hrest⟩ : goodData y = true ∧ goodElems rest = true := by
                simpa [goodElems] using hys
              obtain ⟨ies, hi1, hi2⟩ := ihy hrest (by simp at hsy ⊢; omega) (i + 1)
              rw [validateItems_cons, satisfiesItems_cons]
              have hsy2 : sizeOf y < n := by simp at hsy; omega
              have hiff := ih y hsy2 hy isch (path ++ "[" ++ toString i ++ "]") hri
              have htot := validateSchema_total y isch (path ++ "[" ++ toString i ++ "]")
                (good_noNull _ hy)
              cases hvv : validateSchema y isch (path ++ "[" ++ toString i ++ "]") with
              | none => rw [hvv] at htot; simp at htot
              | some es =>
                rw [hvv] at hiff
                rw [hi1]
                refine ⟨es ++ ies, rfl, ?_⟩
                simp only [Option.some_inj] at hiff
                simp [List.append_eq_nil, hi2, ← hiff, Bool.and_eq_true]
          obtain ⟨ies, hi1, hi2⟩ := hit xs hge le_rfl 0
          have hb := boundErrs_nil_iff xs.length mi ma path
          simp [hok, jsCategory, hi1, List.append_eq_nil, hb, hi2, Bool.and_eq_true]

theorem str_append_assoc (a b c : String) : (a ++ b) ++ c = a ++ (b ++ c) := by
  cases a with
  | mk l1 =>
    cases b with
    | mk l2 =>
      cases c with
      | mk l3 => exact congrArg String.mk (List.append_assoc l1 l2 l3)

theorem str_append_left_cancel (p a b : String) (h : p ++ a = p ++ b) : a = b := by
  have hd : p.data ++ a.data = p.data ++ b.data := congrArg String.data h
  have hab := List.append_cancel_left hd
  cases a
  cases b
  simp_all

theorem append_ne_of_lit_ne (c1 c2 x y : String) (i : Nat)
    (h1 : i < c1.data.length) (h2 : i < c2.data.length)
    (hne : c1.data[i]? ≠ c2.data[i]?) : c1 ++ x ≠ c2 ++ y := by
  intro h
  have hd : c1.data ++ x.data = c2.data ++ y.data := congrArg String.data h
  have e1 : (c1.data ++ x.data)[i]? = c1.data[i]? := by
    rw [List.getElem?_append]
    exact if_pos h1
  have e2 : (c2.data ++ y.data)[i]? = c2.data[i]? := by
    rw [List.getElem?_append]
    exact if_pos h2
  rw [hd] at e1
  exact hne (e1.symm.trans e2)

theorem msg_ne_helper (p c1 c2 x y : String) (i : Nat)
    (h1 : i < c1.data.length) (h2 : i < c2.data.length)
    (hne : c1.data[i]? ≠ c2.data[i]?) :
    p ++ (c1 ++ x) ≠ p ++ (c2 ++ y) := by
  intro h
  exact append_ne_of_lit_ne c1 c2 x y i h1 h2 hne (str_append_left_cancel p _ _ h)

theorem typeMsg_ne_enumMsg (path t f : String) (v : JValue) (vs : List JValue) :
    typeMsg path t f ≠ enumMsg path v vs := by
  simp only [typeMsg, enumMsg, str_append_assoc]
  exact msg_ne_helper path _ _ _ _ 2 (by decide) (by decide) (by decide)

theorem typeMsg_ne_patternMsg (path t f : String) (v : JValue) (src : String) :
    typeMsg path t f ≠ patternMsg path v src := by
  simp only [typeMsg, patternMsg, str_append_assoc]
  exact msg_ne_helper path _ _ _ _ 2 (by decide) (by decide) (by decide)

/-- C9: if the runtime category of the data differs from the schema node's
declared type, the data is not a number when the declared type is
`"number"`, and the lenient numeric-string case does not apply, then
`validateSchema` returns exactly the one-element list containing the type
error, performing no enum, pattern, required-field or per-element checks. -/
theorem c9_type_mismatch_early_return (data : JValue) (schema : Schema) (path : String)
    (t : String) (hty : schema.type = some t)
    (hne : jsCategory data ≠ t)
    (hnum : ¬(t = "number" ∧ jsTypeof data = "number"))
    (hlen : ¬(t = "number" ∧ jsCategory data = "string" ∧ jvNumericLooking data = true)) :
    validateSchema data schema path = some [typeMsg path t (jsCategory data)] := by
  obtain ⟨sty, r, ps, en, pat, mi, ma, it⟩ := schema
  simp only [Schema.type] at hty
  subst hty
  apply val_step_type_fail
  simp [typeErrOf, hlen, hne, hnum]

theorem c9_witness :
    validateSchema (JValue.bool true) strSchema "root" =
      some [typeMsg "root" "string" "boolean"] :=
  c9_type_mismatch_early_return (JValue.bool true) strSchema "root" "string" rfl
    (by decide) (by decide) (by decide)

/-- C4: a numeric-looking string (in the sense of the code's
`!isNaN(parseFloat(s)) && isFinite(s)` test) satisfies the type check of
every schema node that declares type `"number"`: the validator reports no
type error for it. -/
theorem c4_numeric_string_lenient (s : String) (schema : Schema) (path : String)
    (hnum : jsNumericLooking s = true) (hty : schema.type = some "number") :
    ∃ errs, validateSchema (JValue.str s) schema path = some errs ∧
      typeMsg path "number" "string" ∉ errs := by
  obtain ⟨sty, r, ps, en, pat, mi, ma, it⟩ := schema
  simp only [Schema.type] at hty
  subst hty
  have hte : typeErrOf (JValue.str s) (some "number") path = none := by
    simp [typeErrOf, jsCategory, jsTypeof, jvNumericLooking, hnum]
  rw [val_step_prim _ _ _ _ _ _ _ _ _ _ hte (by simp [jsCategory, jsTypeof])
    (by simp [jsCategory, jsTypeof])]
  refine ⟨_, rfl, ?_⟩
  intro hmem
  rcases List.mem_append.mp hmem with h | h
  · cases en with
    | none => simp [enumErrsOf] at h
    | some vs =>
      simp only [enumErrsOf] at h
      split at h
      · simp at h
      · simp only [List.mem_singleton] at h
        exact typeMsg_ne_enumMsg path "number" "string" (JValue.str s) vs h
  · cases pat with
    | none => simp [patternErrsOf] at h
    | some pt =>
      simp only [patternErrsOf] at h
      split at h
      · simp at h
      · simp only [List.mem_singleton] at h
        exact typeMsg_ne_patternMsg path "number" "string" (JValue.str s) pt.1 h

theorem c4_witness :
    jsNumericLooking "12.5" = true ∧
      ∃ errs, validateSchema (JValue.str "12.5") numSchema "root" = some errs ∧
        typeMsg "root" "number" "string" ∉ errs :=
  ⟨by decide, c4_numeric_string_lenient "12.5" numSchema "root" (by decide) rfl⟩

/-- C1 counterexample: a schema node that declares `required` but no
`properties` — the code skips the required check entirely (`if
(type === 'object' && schema.properties)`), so the empty object passes
validation while violating the declared required-field constraint. -/
theorem c1_counterexample :
    validateSchema (JValue.obj [])
        (Schema.mk (some "object") ["a"] none none none none none none) "root" = some [] ∧
      satisfiesB (JValue.obj [])
        (Schema.mk (some "object") ["a"] none none none none none none) = false := by
  constructor
  · exact val_step_obj_noprops (JValue.obj []) "root" (some "object") ["a"]
      none none none none none (by decide) rfl
  · rw [satisfiesB_unfold]
    decide

/-- C1 (amended): for data trees without `null` values and without
`undefined`-valued object properties, and schema trees in which every
object node with a non-empty `required` list also declares `properties`,
`validateSchema` returns the empty error list exactly when the data
satisfies every required-field, type, enum, pattern and array-bound
constraint declared in the schema, recursively. -/
theorem c1_validate_empty_iff_satisfies (data : JValue) (schema : Schema) (path : String)
    (hgd : goodData data = true) (hrp : reqPropsOK schema = true) :
    validateSchema data schema path = some [] ↔ satisfiesB data schema = true :=
  validate_empty_iff_n (sizeOf data + 1) data (by omega) hgd schema path hrp

theorem c1_witness :
    goodData (JValue.obj [("Version", JValue.str "1.1")]) = true ∧
      reqPropsOK (Schema.mk (some "object") ["Version"]
        (some [("Version", strEnum ["1.1"])]) none none none none none) = true ∧
      (validateSchema (JValue.obj [("Version", JValue.str "1.1")])
          (Schema.mk (some "object") ["Version"]
            (some [("Version", strEnum ["1.1"])]) none none none none none) "root" = some [] ↔
        satisfiesB (JValue.obj [("Version", JValue.str "1.1")])
          (Schema.mk (some "object") ["Version"]
            (some [("Version", strEnum ["1.1"])]) none none none none none) = true) :=
  ⟨by decide, by decide,
    c1_validate_empty_iff_satisfies (JValue.obj [("Version", JValue.str "1.1")])
      (Schema.mk (some "object") ["Version"]
        (some [("Version", strEnum ["1.1"])]) none none none none none) "root"
      (by decide) (by decide)⟩

/-- C2 counterexample: `validateSchema(null, schema)` throws a `TypeError`
(`'a' in null`) whenever the schema declares `properties` (here together
with a required name), so the function is not total. -/
theorem c2_counterexample :
    validateSchema JValue.null
      (Schema.mk (some "object") ["a"] (some [("a", strSchema)]) none none none none none)
      "root" = none := by
  rw [val_step_null "root" (some "object") ["a"] [("a", strSchema)]
    none none none none none (by decide)]
  decide

/-- C2 (amended): on every data tree containing no `null` (including
`undefined` and values of mismatched runtime category), `validateSchema`
returns an error list and never throws. -/
theorem c2_total_without_null (data : JValue) (schema : Schema) (path : String)
    (h : noNull data = true) : (validateSchema data schema path).isSome = true :=
  validateSchema_total data schema path h

theorem c2_witness :
    noNull (JValue.obj [("a", JValue.undef)]) = true ∧
      (validateSchema (JValue.obj [("a", JValue.undef)]) INVOICE_SCHEMA "root").isSome = true :=
  ⟨by decide,
    c2_total_without_null (JValue.obj [("a", JValue.undef)]) INVOICE_SCHEMA "root" (by decide)⟩

theorem validateProps_congr : ∀ (props : List (String × Schema))
    (f1 f2 : List (String × JValue)) (path : String),
    (∀ kv ∈ props, jsLookup f1 kv.1 = jsLookup f2 kv.1) →
    validateProps f1 props path = validateProps f2 props path := by
  intro props
  induction props with
  | nil =>
    intro f1 f2 path _
    rw [validateProps_nil, validateProps_nil]
  | cons kv rest ihp =>
    intro f1 f2 path hp
    obtain ⟨k, sub⟩ := kv
    have hk : jsLookup f1 k = jsLookup f2 k := hp (k, sub) (by simp)
    rw [validateProps_cons, validateProps_cons, hk,
      ihp f1 f2 path (fun kv hkv => hp kv (List.mem_cons_of_mem _ hkv))]

/-- C6: `validateSchema` never reads a data property the schema does not
declare: two data objects that agree on the presence of every
`required` name and on the value of every property declared in
`properties` receive identical error lists, however they differ
elsewhere (in particular, no "unknown field" errors exist). -/
theorem c6_undeclared_props_ignored (f1 f2 : List (String × JValue)) (schema : Schema)
    (path : String)
    (hreq : ∀ x ∈ schema.required, keyIn x f1 = keyIn x f2)
    (hprops : ∀ props, schema.properties = some props →
      ∀ kv ∈ props, jsLookup f1 kv.1 = jsLookup f2 kv.1) :
    validateSchema (.obj f1) schema path = validateSchema (.obj f2) schema path := by
  obtain ⟨sty, r, ps, en, pat, mi, ma, it⟩ := schema
  simp only [Schema.required, Schema.properties] at hreq hprops
  have hte : typeErrOf (.obj f1) sty path = typeErrOf (.obj f2) sty path := by
    cases sty <;> simp [typeErrOf, jsCategory, jsTypeof, jvNumericLooking]
  cases hte2 : typeErrOf (.obj f2) sty path with
  | some e =>
    rw [val_step_type_fail _ _ _ _ _ _ _ _ _ _ _ (hte.trans hte2),
        val_step_type_fail _ _ _ _ _ _ _ _ _ _ _ hte2]
  | none =>
    cases ps with
    | none =>
      rw [val_step_obj_noprops _ _ _ _ _ _ _ _ _ (hte.trans hte2) rfl,
          val_step_obj_noprops _ _ _ _ _ _ _ _ _ hte2 rfl]
    | some props =>
      rw [val_step_obj _ _ _ _ _ _ _ _ _ _ (hte.trans hte2),
          val_step_obj _ _ _ _ _ _ _ _ _ _ hte2]
      have hmiss : missingErrsOf f1 r path = missingErrsOf f2 r path := by
        unfold missingErrsOf
        congr 1
        apply List.filter_congr
        intro x hx
        rw [hreq x hx]
      rw [hmiss, validateProps_congr props f1 f2 path (hprops props rfl)]

theorem c6_witness :
    (∀ x ∈ (Schema.mk (some "object") ["a"]
        (some [("a", strSchema)]) none none none none none).required,
      keyIn x [("a", JValue.str "v")] = keyIn x [("a", JValue.str "v"), ("zzz", JValue.num 7)]) ∧
    (∀ props, (Schema.mk (some "object") ["a"]
        (some [("a", strSchema)]) none none none none none).properties = some props →
      ∀ kv ∈ props, jsLookup [("a", JValue.str "v")] kv.1 =
        jsLookup [("a", JValue.str "v"), ("zzz", JValue.num 7)] kv.1) ∧
    validateSchema (.obj [("a", JValue.str "v")])
        (Schema.mk (some "object") ["a"] (some [("a", strSchema)]) none none none none none) "root" =
      validateSchema (.obj [("a", JValue.str "v"), ("zzz", JValue.num 7)])
        (Schema.mk (some "object") ["a"] (some [("a", strSchema)]) none none none none none) "root" :=
  ⟨by decide, by decide,
    c6_undeclared_props_ignored [("a", JValue.str "v")]
      [("a", JValue.str "v"), ("zzz", JValue.num 7)]
      (Schema.mk (some "object") ["a"] (some [("a", strSchema)]) none none none none none)
      "root" (by decide) (by decide)⟩

/-- Index-value pairs of a list, indices starting at `i`. -/
def enumFromIdx (i : Nat) : List JValue → List (Nat × JValue)
  | [] => []
  | x :: xs => (i, x) :: enumFromIdx (i + 1) xs

theorem validateProps_eq_mapM : ∀ (props : List (String × Schema))
    (fields : List (String × JValue)) (path : String),
    validateProps fields props path =
      (props.mapM (fun kv =>
        if jsLookup fields kv.1 = .undef then some []
        else validateSchema (jsLookup fields kv.1) kv.2 (path ++ "." ++ kv.1))).map
        List.flatten := by
  intro props
  induction props with
  | nil =>
    intro fields path
    rw [validateProps_nil]
    rfl
  | cons kv rest ih =>
    intro fields path
    obtain ⟨k, sub⟩ := kv
    rw [validateProps_cons]
    simp only [List.mapM_cons]
    by_cases hk : jsLookup fields k = .undef
    · rw [if_pos hk]
      rw [ih fields path]
      cases hr : rest.mapM (fun kv =>
          if jsLookup fields kv.1 = JValue.undef then some []
          else validateSchema (jsLookup fields kv.1) kv.2 (path ++ "." ++ kv.1)) with
      | none => simp [hk, hr]
      | some ls => simp [hk, hr]
    · rw [if_neg hk]
      cases hv : validateSchema (jsLookup fields k) sub (path ++ "." ++ k) with
      | none => simp [hk, hv]
      | some es =>
        rw [ih fields path]
        cases hr : rest.mapM (fun kv =>
            if jsLookup fields kv.1 = JValue.undef then some []
            else validateSchema (jsLookup fields kv.1) kv.2 (path ++ "." ++ kv.1)) with
        | none => simp [hk, hv, hr]
        | some ls => simp [hk, hv, hr]

theorem validateItems_eq_mapM : ∀ (xs : List JValue) (isch : Schema) (path : String) (i : Nat),
    validateItems xs isch path i =
      ((enumFromIdx i xs).mapM (fun p =>
        validateSchema p.2 isch (path ++ "[" ++ toString p.1 ++ "]"))).map
        List.flatten := by
  intro xs
  induction xs with
  | nil =>
    intro isch path i
    rw [validateItems_nil]
    rfl
  | cons x rest ih =>
    intro isch path i
    rw [validateItems_cons]
    simp only [enumFromIdx, List.mapM_cons]
    cases hv : validateSchema x isch (path ++ "[" ++ toString i ++ "]") with
    | none => simp [hv]
    | some es =>
      rw [ih isch path (i + 1)]
      cases hr : (enumFromIdx (i + 1) rest).mapM (fun p =>
          validateSchema p.2 isch (path ++ "[" ++ toString p.1 ++ "]")) with
      | none => simp [hv, hr]
      | some ls => simp [hv, hr]

/-- C5: the error list is ordered by traversal.  At an object node the
missing-required-field errors (in `required` declaration order) precede
the errors of the recursion into the declared properties, which appear in
schema declaration order (an absent property contributing nothing); at an
array node the `minItems`/`maxItems` bound errors precede the per-element
errors, which appear in element index order. -/
theorem c5_error_order :
    (∀ (fields : List (String × JValue)) (r : List String)
        (props : List (String × Schema)) (en : Option (List JValue))
        (pat : Option (String × (String → Bool))) (mi ma : Option Nat)
        (it : Option Schema) (path : String),
        validateSchema (.obj fields) (.mk (some "object") r (some props) en pat mi ma it) path =
          (props.mapM (fun kv =>
            if jsLookup fields kv.1 = .undef then some []
            else validateSchema (jsLookup fields kv.1) kv.2 (path ++ "." ++ kv.1))).map
            (fun ls => missingErrsOf fields r path ++ ls.flatten)) ∧
    (∀ (xs : List JValue) (r : List String) (ps : Option (List (String × Schema)))
        (en : Option (List JValue)) (pat : Option (String × (String → Bool)))
        (mi ma : Option Nat) (isch : Schema) (path : String),
        validateSchema (.arr xs) (.mk (some "array") r ps en pat mi ma (some isch)) path =
          ((enumFromIdx 0 xs).mapM (fun p =>
            validateSchema p.2 isch (path ++ "[" ++ toString p.1 ++ "]"))).map
            (fun ls => boundErrsOf xs.length mi ma path ++ ls.flatten)) := by
  constructor
  · intro fields r props en pat mi ma it path
    rw [val_step_obj _ _ _ _ _ _ _ _ _ _ (by simp [typeErrOf, jsCategory, jsTypeof])]
    rw [validateProps_eq_mapM]
    cases hr : props.mapM (fun kv =>
        if jsLookup fields kv.1 = JValue.undef then some []
        else validateSchema (jsLookup fields kv.1) kv.2 (path ++ "." ++ kv.1)) with
    | none => simp [hr]
    | some ls => simp [hr]
  · intro xs r ps en pat mi ma isch path
    rw [val_step_arr _ _ _ _ _ _ _ _ _ _ (by simp [typeErrOf, jsCategory, jsTypeof])]
    show (match validateItems xs isch path 0 with
      | none => none
      | some ies => some (boundErrsOf xs.length mi ma path ++ ies)) = _
    rw [validateItems_eq_mapM]
    cases hr : (enumFromIdx 0 xs).mapM (fun p =>
        validateSchema p.2 isch (path ++ "[" ++ toString p.1 ++ "]")) with
    | none => simp [hr]
    | some ls => simp [hr]

/-- `PathExtends p q`: `q` is `p` extended by zero or more `.prop` /
`[index]` steps — the dotted/bracketed path notation of the validator. -/
inductive PathExtends : String → String → Prop where
  | refl (p : String) : PathExtends p p
  | prop (p q k : String) : PathExtends p q → PathExtends p (q ++ "." ++ k)
  | idx (p q : String) (i : Nat) : PathExtends p q → PathExtends p (q ++ "[" ++ toString i ++ "]")

/-- The six exact error-message templates of the validator, at path `q`. -/
def IsErrMsgAt (q e : String) : Prop :=
  (∃ t f, e = typeMsg q t f) ∨
  (∃ nm, e = missingMsg q nm) ∨
  (∃ v vs, e = enumMsg q v vs) ∨
  (∃ v src, e = patternMsg q v src) ∨
  (∃ len m, e = minItemsMsg q len m) ∨
  (∃ len m, e = maxItemsMsg q len m)

theorem pathExtends_trans (p q r : String) (h1 : PathExtends p q)
    (h2 : PathExtends q r) : PathExtends p r := by
  induction h2 with
  | refl => exact h1
  | prop q' k hq ih => exact .prop _ _ _ ih
  | idx q' i hq ih => exact .idx _ _ _ ih

theorem typeErrOf_shape (data : JValue) (sty : Option String) (path e : String)
    (h : typeErrOf data sty path = some e) : ∃ t f, e = typeMsg path t f := by
  cases sty with
  | none => simp [typeErrOf] at h
  | some t =>
    simp only [typeErrOf] at h
    split at h
    · simp at h
    · split at h
      · split at h
        · simp at h
        · exact ⟨t, jsCategory data, (Option.some_inj.mp h).symm⟩
      · simp at h

theorem enumErrsOf_mem (data : JValue) (en : Option (List JValue)) (path e : String)
    (h : e ∈ enumErrsOf data en path) : ∃ v vs, e = enumMsg path v vs := by
  cases en with
  | none => simp [enumErrsOf] at h
  | some vs =>
    simp only [enumErrsOf] at h
    split at h
    · simp at h
    · simp only [List.mem_singleton] at h
      exact ⟨data, vs, h⟩

theorem patternErrsOf_mem (data : JValue) (pat : Option (String × (String → Bool)))
    (path e : String) (h : e ∈ patternErrsOf data pat path) :
    ∃ v src, e = patternMsg path v src := by
  cases pat with
  | none => cases data <;> simp [patternErrsOf] at h
  | some pt =>
    cases data <;> simp only [patternErrsOf] at h <;> try simp at h
    rename_i s
    exact ⟨JValue.str s, pt.1, h.2⟩

theorem missingErrsOf_mem (fields : List (String × JValue)) (r : List String)
    (path e : String) (h : e ∈ missingErrsOf fields r path) :
    ∃ nm, e = missingMsg path nm := by
  simp only [missingErrsOf, List.mem_map] at h
  obtain ⟨x, _, hx⟩ := h
  exact ⟨x, hx.symm⟩

theorem boundErrsOf_mem (len : Nat) (mi ma : Option Nat) (path e : String)
    (h : e ∈ boundErrsOf len mi ma path) :
    (∃ l m, e = minItemsMsg path l m) ∨ (∃ l m, e = maxItemsMsg path l m) := by
  simp only [boundErrsOf] at h
  rcases List.mem_append.mp h with h1 | h1
  · left
    split at h1
    · split at h1
      · rw [List.mem_singleton] at h1
        exact ⟨len, _, h1⟩
      · exact absurd h1 (List.not_mem_nil e)
    · exact absurd h1 (List.not_mem_nil e)
  · right
    split at h1
    · split at h1
      · rw [List.mem_singleton] at h1
        exact ⟨len, _, h1⟩
      · exact absurd h1 (List.not_mem_nil e)
    · exact absurd h1 (List.not_mem_nil e)

set_option maxHeartbeats 2000000 in
theorem validateSchema_shape_n :
    ∀ (n : Nat) (data : JValue), sizeOf data < n →
      ∀ (schema : Schema) (path : String) (errs : List String),
        validateSchema data schema path = some errs →
        ∀ e ∈ errs, ∃ q, PathExtends path q ∧ IsErrMsgAt q e := by
  intro n
  induction n with
  | zero => intro data h; omega
  | succ n ih =>
    intro data hlt schema path errs hval e he
    obtain ⟨sty, r, ps, en, pat, mi, ma, it⟩ := schema
    cases hte : typeErrOf data sty path with
    | some e0 =>
      rw [val_step_type_fail _ _ _ _ _ _ _ _ _ _ _ hte] at hval
      obtain ⟨t, f, hshape⟩ := typeErrOf_shape data sty path e0 hte
      have heq : errs = [e0] := (Option.some_inj.mp hval).symm
      subst heq
      rw [List.mem_singleton] at he
      subst he
      exact ⟨path, .refl path, .inl ⟨t, f, hshape⟩⟩
    | none =>
      cases data with
      | undef =>
        rw [val_step_prim _ _ _ _ _ _ _ _ _ _ hte (by simp [jsCategory, jsTypeof])
          (by simp [jsCategory, jsTypeof])] at hval
        have heq : enumErrsOf JValue.undef en path ++ patternErrsOf JValue.undef pat path = errs :=
          Option.some_inj.mp hval
        subst heq
        rcases List.mem_append.mp he with hm | hm
        · obtain ⟨v, vs, hv⟩ := enumErrsOf_mem _ en path e hm
          exact ⟨path, .refl path, .inr (.inr (.inl ⟨v, vs, hv⟩))⟩
        · obtain ⟨v, src, hv⟩ := patternErrsOf_mem _ pat path e hm
          exact ⟨path, .refl path, .inr (.inr (.inr (.inl ⟨v, src, hv⟩)))⟩
      | bool b =>
        rw [val_step_prim _ _ _ _ _ _ _ _ _ _ hte (by simp [jsCategory, jsTypeof])
          (by simp [jsCategory, jsTypeof])] at hval
        have heq : enumErrsOf (JValue.bool b) en path ++ patternErrsOf (JValue.bool b) pat path = errs :=
          Option.some_inj.mp hval
        subst heq
        rcases List.mem_append.mp he with hm | hm
        · obtain ⟨v, vs, hv⟩ := enumErrsOf_mem _ en path e hm
          exact ⟨path, .refl path, .inr (.inr (.inl ⟨v, vs, hv⟩))⟩
        · obtain ⟨v, src, hv⟩ := patternErrsOf_mem _ pat path e hm
          exact ⟨path, .refl path, .inr (.inr (.inr (.inl ⟨v, src, hv⟩)))⟩
      | num m =>
        rw [val_step_prim _ _ _ _ _ _ _ _ _ _ hte (by simp [jsCategory, jsTypeof])
          (by simp [jsCategory, jsTypeof])] at hval
        have heq : enumErrsOf (JValue.num m) en path ++ patternErrsOf (JValue.num m) pat path = errs :=
          Option.some_inj.mp hval
        subst heq
        rcases List.mem_append.mp he with hm | hm
        · obtain ⟨v, vs, hv⟩ := enumErrsOf_mem _ en path e hm
          exact ⟨path, .refl path, .inr (.inr (.inl ⟨v, vs, hv⟩))⟩
        · obtain ⟨v, src, hv⟩ := patternErrsOf_mem _ pat path e hm
          exact ⟨path, .refl path, .inr (.inr (.inr (.inl ⟨v, src, hv⟩)))⟩
      | str s =>
        rw [val_step_prim _ _ _ _ _ _ _ _ _ _ hte (by simp [jsCategory, jsTypeof])
          (by simp [jsCategory, jsTypeof])] at hval
        have heq : enumErrsOf (JValue.str s) en path ++ patternErrsOf (JValue.str s) pat path = errs :=
          Option.some_inj.mp hval
        subst heq
        rcases List.mem_append.mp he with hm | hm
        · obtain ⟨v, vs, hv⟩ := enumErrsOf_mem _ en path e hm
          exact ⟨path, .refl path, .inr (.inr (.inl ⟨v, vs, hv⟩))⟩
        · obtain ⟨v, src, hv⟩ := patternErrsOf_mem _ pat path e hm
          exact ⟨path, .refl path, .inr (.inr (.inr (.inl ⟨v, src, hv⟩)))⟩
      | null =>
        cases ps with
        | none =>
          rw [val_step_obj_noprops _ _ _ _ _ _ _ _ _ hte rfl] at hval
          have heq : errs = [] := (Option.some_inj.mp hval).symm
          subst heq
          exact absurd he (List.not_mem_nil e)
        | some props =>
          rw [val_step_null _ _ _ _ _ _ _ _ _ hte] at hval
          split at hval
          · have heq : errs = [] := (Option.some_inj.mp hval).symm
            subst heq
            exact absurd he (List.not_mem_nil e)
          · simp at hval
      | obj fields =>
        cases ps with
        | none =>
          rw [val_step_obj_noprops _ _ _ _ _ _ _ _ _ hte rfl] at hval
          have heq : errs = [] := (Option.some_inj.mp hval).symm
          subst heq
          exact absurd he (List.not_mem_nil e)
        | some props =>
          rw [val_step_obj _ _ _ _ _ _ _ _ _ _ hte] at hval
          have hrec : ∀ (props' : List (String × Schema)) (pes : List String),
              validateProps fields props' path = some pes →
              ∀ e2 ∈ pes, ∃ q, PathExtends path q ∧ IsErrMsgAt q e2 := by
            intro props'
            induction props' with
            | nil =>
              intro pes hp e2 he2
              rw [validateProps_nil] at hp
              cases Option.some_inj.mp hp
              exact absurd he2 (List.not_mem_nil e2)
            | cons kv rest ihp =>
              intro pes hp e2 he2
              obtain ⟨k, sub⟩ := kv
              rw [validateProps_cons] at hp
              by_cases hk : jsLookup fields k = .undef
              · rw [if_pos hk] at hp
                exact ihp pes hp e2 he2
              · rw [if_neg hk] at hp
                cases hv : validateSchema (jsLookup fields k) sub (path ++ "." ++ k) with
                | none => rw [hv] at hp; simp at hp
                | some es =>
                  rw [hv] at hp
                  cases hr : validateProps fields rest path with
                  | none => rw [hr] at hp; simp at hp
                  | some rs =>
                    rw [hr] at hp
                    have heq : es ++ rs = pes := Option.some_inj.mp hp
                    subst heq
                    rcases List.mem_append.mp he2 with hm | hm
                    · have hszv : sizeOf (jsLookup fields k) < n := by
                        have := jsLookup_sizeOf_le fields k
                        simp at hlt
                        omega
                      obtain ⟨q, hq1, hq2⟩ := ih (jsLookup fields k) hszv sub
                        (path ++ "." ++ k) es hv e2 hm
                      exact ⟨q, pathExtends_trans _ _ _ (.prop _ _ _ (.refl path)) hq1, hq2⟩
                    · exact ihp rs hr e2 hm
          cases hp : validateProps fields props path with
          | none => rw [hp] at hval; simp at hval
          | some pes =>
            rw [hp] at hval
            have heq : missingErrsOf fields r path ++ pes = errs := Option.some_inj.mp hval
            subst heq
            rcases List.mem_append.mp he with hm | hm
            · obtain ⟨nm, hnm⟩ := missingErrsOf_mem fields r path e hm
              exact ⟨path, .refl path, .inr (.inl ⟨nm, hnm⟩)⟩
            · exact hrec props pes hp e hm
      | arr xs =>
        rw [val_step_arr _ _ _ _ _ _ _ _ _ _ hte] at hval
        cases it with
        | none =>
          have heq : boundErrsOf xs.length mi ma path = errs := Option.some_inj.mp hval
          subst heq
          rcases boundErrsOf_mem xs.length mi ma path e he with h1 | h1
          · exact ⟨path, .refl path, .inr (.inr (.inr (.inr (.inl h1))))⟩
          · exact ⟨path, .refl path, .inr (.inr (.inr (.inr (.inr h1))))⟩
        | some isch =>
          have hitems : ∀ (ys : List JValue), sizeOf ys ≤ sizeOf xs →
              ∀ (i : Nat) (ies : List String),
              validateItems ys isch path i = some ies →
              ∀ e2 ∈ ies, ∃ q, PathExtends path q ∧ IsErrMsgAt q e2 := by
            intro ys
            induction ys with
            | nil =>
              intro _ i ies hi e2 he2
              rw [validateItems_nil] at hi
              cases Option.some_inj.mp hi
              exact absurd he2 (List.not_mem_nil e2)
            | cons y rest ihy =>
              intro hsy i ies hi e2 he2
              rw [validateItems_cons] at hi
              cases hv : validateSchema y isch (path ++ "[" ++ toString i ++ "]") with
              | none => rw [hv] at hi; simp at hi
              | some es =>
                rw [hv] at hi
                cases hr : validateItems rest isch path (i + 1) with
                | none => rw [hr] at hi; simp at hi
                | some rs =>
                  rw [hr] at hi
                  have heq : es ++ rs = ies := Option.some_inj.mp hi
                  subst heq
                  rcases List.mem_append.mp he2 with hm | hm
                  · have hszy : sizeOf y < n := by
                      simp at hsy hlt
                      omega
                    obtain ⟨q, hq1, hq2⟩ := ih y hszy isch
                      (path ++ "[" ++ toString i ++ "]") es hv e2 hm
                    exact ⟨q, pathExtends_trans _ _ _ (.idx _ _ _ (.refl path)) hq1, hq2⟩
                  · exact ihy (by simp at hsy ⊢; omega) (i + 1) rs hr e2 hm
          revert hval
          show (match validateItems xs isch path 0 with
            | none => none
            | some ies => some (boundErrsOf xs.length mi ma path ++ ies)) = some errs → _
          intro hval
          cases hi : validateItems xs isch path 0 with
          | none => rw [hi] at hval; simp at hval
          | some ies =>
            rw [hi] at hval
            have heq : boundErrsOf xs.length mi ma path ++ ies = errs := Option.some_inj.mp hval
            subst heq
            rcases List.mem_append.mp he with hm | hm
            · rcases boundErrsOf_mem xs.length mi ma path e hm with h1 | h1
              · exact ⟨path, .refl path, .inr (.inr (.inr (.inr (.inl h1))))⟩
              · exact ⟨path, .refl path, .inr (.inr (.inr (.inr (.inr h1))))⟩
            · exact hitems xs le_rfl 0 ies hi e hm

/-- C3: every error string `validateSchema` emits is exactly one of the
six template strings of the source (missing required field, enum
violation, pattern violation, minItems, maxItems, type error), with the
enum values joined by comma-space, at a path which is the dotted/bracketed
position of the offending node in the data tree. -/
theorem c3_error_strings_exact (data : JValue) (schema : Schema) (path : String)
    (errs : List String) (hval : validateSchema data schema path = some errs) :
    ∀ e ∈ errs, ∃ q, PathExtends path q ∧ IsErrMsgAt q e :=
  validateSchema_shape_n (sizeOf data + 1) data (by omega) schema path errs hval

theorem c3_witness :
    ∃ q, PathExtends "root" q ∧ IsErrMsgAt q (missingMsg "root" "a") :=
  c3_error_strings_exact (JValue.obj [])
    (Schema.mk (some "object") ["a"] (some []) none none none none none) "root"
    [missingMsg "root" "a"]
    (by rw [val_step_obj [] "root" (some "object") ["a"] [] none none none none none
          (by decide)]
        rw [validateProps_nil]
        simp [missingErrsOf, keyIn])
    (missingMsg "root" "a") (by simp)

/-- C10: in the XML validation route, a truthy `ItemList.Item` that is
already an array is installed as the `ItemList` array unchanged, and any
other truthy `Item` (the single-`<Item>` case) is wrapped in a one-element
array; the schema's `ItemList` node declares `minItems: 1`, and validating
a one-element array against it adds no bound errors — it is exactly the
validation of the single item at index 0. -/
theorem c10_itemlist_normalization :
    (∀ (fields : List (String × JValue)) (xs : List JValue),
        jsTruthy (jsLookup fields "ItemList") = true →
        jsGet (jsLookup fields "ItemList") "Item" = some (.arr xs) →
        fixItemList (.obj fields) =
          some (jsSetKey (.obj fields) "ItemList" (.arr xs))) ∧
    (∀ (fields : List (String × JValue)) (item : JValue),
        jsTruthy (jsLookup fields "ItemList") = true →
        jsGet (jsLookup fields "ItemList") "Item" = some item →
        jsTruthy item = true →
        (∀ xs, item ≠ .arr xs) →
        fixItemList (.obj fields) =
          some (jsSetKey (.obj fields) "ItemList" (.arr [item]))) ∧
    (INVOICE_SCHEMA.properties.getD []).find? (fun kv => kv.1 == "ItemList") =
      some ("ItemList", itemListSchema) ∧
    itemListSchema.minItems = some 1 ∧
    itemListSchema.items = some itemSchema ∧
    (∀ (v : JValue) (path : String),
        validateSchema (.arr [v]) itemListSchema path =
          validateSchema v itemSchema (path ++ "[0]")) := by
  refine ⟨?_, ?_, rfl, rfl, rfl, ?_⟩
  · intro fields xs h1 h2
    have hg : jsGet (JValue.obj fields) "ItemList" = some (jsLookup fields "ItemList") := rfl
    simp only [fixItemList, hg]
    rw [if_pos h1, h2]
    simp [jsTruthy]
  · intro fields item h1 h2 h3 h4
    have hg : jsGet (JValue.obj fields) "ItemList" = some (jsLookup fields "ItemList") := rfl
    simp only [fixItemList, hg]
    rw [if_pos h1, h2]
    simp only [h3, if_true]
  · intro v path
    have hpath : path ++ "[" ++ toString (0 : Nat) ++ "]" = path ++ "[0]" := by
      rw [str_append_assoc, str_append_assoc]
      rfl
    rw [show itemListSchema =
      Schema.mk (some "array") [] none none none (some 1) (some 1000) (some itemSchema)
      from rfl]
    rw [val_step_arr [v] path (some "array") [] none none none (some 1) (some 1000)
      (some itemSchema) (by simp [typeErrOf, jsCategory])]
    show (match validateItems [v] itemSchema path 0 with
      | none => none
      | some ies => some (boundErrsOf 1 (some 1) (some 1000) path ++ ies)) = _
    rw [validateItems_cons, hpath]
    cases hv : validateSchema v itemSchema (path ++ "[0]") with
    | none => simp [hv]
    | some es => simp [hv, validateItems_nil, boundErrsOf]

theorem validateProps_empty_fields : ∀ (props : List (String × Schema)) (path : String),
    validateProps [] props path = some [] := by
  intro props path
  induction props with
  | nil => exact validateProps_nil [] path
  | cons kv rest ih =>
    obtain ⟨k, sub⟩ := kv
    rw [validateProps_cons, if_pos (by simp [jsLookup, List.find?])]
    exact ih

/-- Validating the empty object against an object schema with declared
properties yields exactly the missing-required-field errors. -/
theorem validate_empty_obj (schema : Schema) (path : String)
    (h1 : schema.type = some "object") (h2 : schema.properties.isSome = true) :
    validateSchema (JValue.obj []) schema path =
      some (missingErrsOf [] schema.required path) := by
  obtain ⟨sty, r, ps, en, pat, mi, ma, it⟩ := schema
  simp only [Schema.type, Schema.properties] at h1 h2
  subst h1
  cases ps with
  | none => simp at h2
  | some props =>
    rw [val_step_obj _ _ _ _ _ _ _ _ _ _ (by simp [typeErrOf, jsCategory, jsTypeof]),
      validateProps_empty_fields]
    simp [Schema.required]

/-- Shared evaluation of the handler on a validation failure. -/
theorem postValidate_invalid_eq (result : List (String × JValue))
    (fixedData : JValue) (errs : List String)
    (hroot : jsTruthy (jsLookup result "Invoice") = true)
    (hfix : fixItemList (normalizeXml (jsLookup result "Invoice")) = some fixedData)
    (hval : validateSchema fixedData INVOICE_SCHEMA "root" = some errs)
    (hlen : errs.length > 0) :
    postValidateParsed result = (200, invalidBody errs) := by
  simp [postValidateParsed, hroot, hfix, hval, hlen]

/-- C7: a POST whose body parses as XML with an `Invoice` root element but
fails schema validation is answered with HTTP status 200 — not a
transport-level error status — and the failure appears only in the
response body, which carries `<Valid>false</Valid>`. -/
theorem c7_invalid_payload_status_200 (result : List (String × JValue))
    (fixedData : JValue) (errs : List String)
    (hroot : jsTruthy (jsLookup result "Invoice") = true)
    (hfix : fixItemList (normalizeXml (jsLookup result "Invoice")) = some fixedData)
    (hval : validateSchema fixedData INVOICE_SCHEMA "root" = some errs)
    (hne : errs ≠ []) :
    postValidateParsed result = (200, invalidBody errs) ∧
      ∃ a b, invalidBody errs = a ++ "<Valid>false</Valid>" ++ b := by
  constructor
  · exact postValidate_invalid_eq result fixedData errs hroot hfix hval
      (List.length_pos.mpr hne)
  · refine ⟨"\n                 <ValidationResponse>\n                    ",
      "\n                    <Message>Validation Failed</Message>\n                    <Errors>\n                        " ++
        errorTags errs ++
        "\n                 </ValidationResponse>\n             ", ?_⟩
    unfold invalidBody
    simp only [← str_append_assoc]
    rfl

theorem c7_witness :
    jsTruthy (jsLookup [("Invoice", JValue.obj [])] "Invoice") = true ∧
      fixItemList (normalizeXml (jsLookup [("Invoice", JValue.obj [])] "Invoice")) =
        some (JValue.obj []) ∧
      validateSchema (JValue.obj []) INVOICE_SCHEMA "root" =
        some (missingErrsOf [] (Schema.required INVOICE_SCHEMA) "root") ∧
      postValidateParsed [("Invoice", JValue.obj [])] =
        (200, invalidBody (missingErrsOf [] (Schema.required INVOICE_SCHEMA) "root")) := by
  have hlk : jsLookup [("Invoice", JValue.obj [])] "Invoice" = JValue.obj [] := by
    simp [jsLookup, List.find?]
  have hnorm : normalizeXml (JValue.obj []) = JValue.obj [] := by
    simp [normalizeXml, jsLookup, List.find?]
  have hfix : fixItemList (JValue.obj []) = some (JValue.obj []) := by
    simp [fixItemList, jsGet, jsLookup, List.find?, jsTruthy]
  have hval := validate_empty_obj INVOICE_SCHEMA "root" rfl rfl
  refine ⟨by rw [hlk]; rfl, by rw [hlk, hnorm]; exact hfix, hval, ?_⟩
  exact (c7_invalid_payload_status_200 [("Invoice", JValue.obj [])] (JValue.obj [])
    (missingErrsOf [] (Schema.required INVOICE_SCHEMA) "root")
    (by rw [hlk]; rfl) (by rw [hlk, hnorm]; exact hfix) hval (by decide)).1

theorem c10_witness :
    fixItemList
        (JValue.obj [("ItemList", JValue.obj [("Item", JValue.arr [JValue.str "x"])])]) =
      some (jsSetKey
        (JValue.obj [("ItemList", JValue.obj [("Item", JValue.arr [JValue.str "x"])])])
        "ItemList" (JValue.arr [JValue.str "x"])) ∧
    fixItemList
        (JValue.obj [("ItemList", JValue.obj [("Item", JValue.str "y")])]) =
      some (jsSetKey
        (JValue.obj [("ItemList", JValue.obj [("Item", JValue.str "y")])])
        "ItemList" (JValue.arr [JValue.str "y"])) := by
  refine ⟨?_, ?_⟩
  · exact c10_itemlist_normalization.1
      [("ItemList", JValue.obj [("Item", JValue.arr [JValue.str "x"])])]
      [JValue.str "x"] rfl rfl
  · exact c10_itemlist_normalization.2.1
      [("ItemList", JValue.obj [("Item", JValue.str "y")])]
      (JValue.str "y") rfl rfl rfl (fun xs h => JValue.noConfusion h)

set_option maxRecDepth 100000 in
/-- C8 (code bug): not every response body of the XML validation route is
well-formed XML wrapped in a `ValidationResponse` envelope.  The failure
branch of the handler never closes the `Errors` element it opens, so for
the parsed input `<Invoice></Invoice>` — which fails validation with
missing-required-field errors — the route answers status 200 with a body
whose tags do not balance. -/
theorem c8_failure_body_not_wellformed :
    (postValidateParsed [("Invoice", JValue.obj [])]).1 = 200 ∧
      xmlBalanced (postValidateParsed [("Invoice", JValue.obj [])]).2 = false := by
  have hlk : jsLookup [("Invoice", JValue.obj [])] "Invoice" = JValue.obj [] := rfl
  have hnorm : normalizeXml (JValue.obj []) = JValue.obj [] := by
    simp [normalizeXml, jsLookup, List.find?]
  have hfix : fixItemList (JValue.obj []) = some (JValue.obj []) := by
    simp [fixItemList, jsGet, jsLookup, List.find?, jsTruthy]
  have hval := validate_empty_obj INVOICE_SCHEMA "root" rfl rfl
  have hmsgs : missingErrsOf [] (Schema.required INVOICE_SCHEMA) "root" =
      ["root: Missing required field 'Version'", "root: Missing required field 'TranDtls'",
       "root: Missing required field 'DocDtls'", "root: Missing required field 'SellerDtls'",
       "root: Missing required field 'BuyerDtls'", "root: Missing required field 'ItemList'",
       "root: Missing required field 'ValDtls'"] := by
    decide
  rw [hmsgs] at hval
  have hpost := postValidate_invalid_eq [("Invoice", JValue.obj [])] (JValue.obj [])
    ["root: Missing required field 'Version'", "root: Missing required field 'TranDtls'",
     "root: Missing required field 'DocDtls'", "root: Missing required field 'SellerDtls'",
     "root: Missing required field 'BuyerDtls'", "root: Missing required field 'ItemList'",
     "root: Missing required field 'ValDtls'"]
    (by rw [hlk]; rfl) (by rw [hlk, hnorm]; exact hfix) hval (by decide)
  rw [hpost]
  exact ⟨rfl, by decide⟩
